import Mathlib

/-!
Shallow embedding of the turn-based roguelike core
(`src/world.rs`, `src/visibility.rs`, `src/game.rs`) in Lean 4,
with theorems settling the specification claims about it.

Rust machine integers are modelled as `Int` (i32) and `Nat` (u32 / usize /
u64); overflow and two's-complement casts are made explicit where the code
relies on them.  Fallible code (Rust panics and `Result`s) is modelled with
`Option` and `Except`.  Randomness (`rand::Rng`) is modelled as an explicit
stream of natural numbers consumed draw by draw.
-/

/-- Entity identifiers (`entity_table::Entity`). -/
abbrev Entity := Nat

/-- `coord_2d::Coord`: a pair of i32 coordinates. -/
structure Coord where
  x : Int
  y : Int
deriving DecidableEq

/-- `coord_2d::Size`. -/
structure Size where
  width : Nat
  height : Nat
deriving DecidableEq

/-- Componentwise coordinate addition (`Coord + Coord`). -/
def Coord.add (a b : Coord) : Coord := ⟨a.x + b.x, a.y + b.y⟩

/-- `Coord::is_valid(size)`: both components non-negative and within size. -/
def Coord.isValid (c : Coord) (s : Size) : Bool :=
  decide (0 ≤ c.x) && decide (c.x < (s.width : Int)) &&
    (decide (0 ≤ c.y) && decide (c.y < (s.height : Int)))

/-- `direction::CardinalDirection`. -/
inductive CardinalDirection where
  | north
  | east
  | south
  | west
deriving DecidableEq

/-- `CardinalDirection::coord()`: the unit step for each direction. -/
def CardinalDirection.coord : CardinalDirection → Coord
  | .north => ⟨0, -1⟩
  | .east => ⟨1, 0⟩
  | .south => ⟨0, 1⟩
  | .west => ⟨-1, 0⟩

/-- `NpcType` (world.rs). -/
inductive NpcType where
  | orc
  | troll
deriving DecidableEq

/-- `ItemType` (world.rs). -/
inductive ItemType where
  | healthPotion
  | fireballScroll
  | confusionScroll
  | sword
  | staff
  | armour
  | robe
deriving DecidableEq

/-- `ProjectileType` (world.rs); payloads are u32. -/
inductive ProjectileType where
  | fireball (damage : Nat)
  | confusion (duration : Nat)
deriving DecidableEq

/-- `Tile` (world.rs). -/
inductive Tile where
  | player
  | playerCorpse
  | floor
  | wall
  | npc (t : NpcType)
  | npcCorpse (t : NpcType)
  | item (t : ItemType)
  | projectile (p : ProjectileType)
  | stairs
deriving DecidableEq

/-- `HitPoints` (world.rs); both fields u32. -/
structure HitPoints where
  current : Nat
  max : Nat
deriving DecidableEq

/-- The spatial layers (world.rs `declare_layers_module`). -/
inductive Layer where
  | floor
  | character
  | object
  | feature
  | projectile
deriving DecidableEq

/-- `spatial_table::Location`. -/
structure Location where
  coord : Coord
  layer : Option Layer
deriving DecidableEq

/-- `LogMessage` (game.rs). -/
inductive LogMessage where
  | playerAttacksNpc (t : NpcType)
  | npcAttacksPlayer (t : NpcType)
  | playerKillsNpc (t : NpcType)
  | npcKillsPlayer (t : NpcType)
  | playerGets (t : ItemType)
  | playerInventoryIsFull
  | noItemUnderPlayer
  | noItemInInventorySlot
  | playerHeals
  | playerDrops (t : ItemType)
  | noSpaceToDropItem
  | playerLaunchesProjectile (p : ProjectileType)
  | npcDies (t : NpcType)
  | npcBecomesConfused (t : NpcType)
  | npcIsNoLongerConfused (t : NpcType)
  | playerDodges (t : NpcType)
  | npcDodges (t : NpcType)
deriving DecidableEq

/-- `BumpAttackOutcome` (world.rs). -/
inductive BumpAttackOutcome where
  | hit
  | dodge
  | kill
deriving DecidableEq

/-- `ItemUsage` (world.rs). -/
inductive ItemUsage where
  | immediate
  | aim
deriving DecidableEq

/-- `NpcAction` (behaviour.rs). -/
inductive NpcAction where
  | wait
  | move (d : CardinalDirection)
deriving DecidableEq

/-- `CellVisibility` (visibility.rs). -/
inductive CellVisibility where
  | currently
  | previously
  | never
deriving DecidableEq

/-!
## Component tables

`entity_table::ComponentTable` is a sparse entity-to-value mapping.  We model
it as an association list kept in insertion order (which is the iteration
order used by `iter`/`iter_mut`).
-/

/-- A sparse component table: entity-keyed association list. -/
abbrev ComponentTable (α : Type) : Type := List (Entity × α)

namespace ComponentTable

/-- The empty table. -/
def empty {α : Type} : ComponentTable α := []

/-- `ComponentTable::get`. -/
def get {α : Type} : ComponentTable α → Entity → Option α
  | [], _ => none
  | (e', a) :: rest, e => if e' = e then some a else get rest e

/-- `ComponentTable::insert`: replace the existing entry in place, or append. -/
def insert {α : Type} : ComponentTable α → Entity → α → ComponentTable α
  | [], e, a => [(e, a)]
  | (e', a') :: rest, e, a =>
    if e' = e then (e, a) :: rest else (e', a') :: insert rest e a

/-- `ComponentTable::remove`: drop every entry for the given entity. -/
def removeKey {α : Type} (t : ComponentTable α) (e : Entity) : ComponentTable α :=
  t.filter (fun p => p.1 ≠ e)

/-- `ComponentTable::contains`. -/
def containsKey {α : Type} (t : ComponentTable α) (e : Entity) : Bool :=
  (get t e).isSome

/-- `ComponentTable::is_empty`. -/
def isEmpty {α : Type} (t : ComponentTable α) : Bool :=
  match t with
  | [] => true
  | _ :: _ => false

/-- The keys of the table, in order. -/
def keys {α : Type} (t : ComponentTable α) : List Entity := t.map Prod.fst

theorem get_insert_self {α : Type} (t : ComponentTable α) (e : Entity) (a : α) :
    get (insert t e a) e = some a := by
  induction t with
  | nil => simp [insert, get]
  | cons p rest ih =>
    by_cases h : p.1 = e
    · simp [insert, get, h]
    · simp only [insert]
      rw [if_neg h]
      simp only [get]
      rw [if_neg h]
      exact ih

theorem get_insert_other {α : Type} (t : ComponentTable α) (e e' : Entity) (a : α)
    (h : e ≠ e') : get (insert t e a) e' = get t e' := by
  induction t with
  | nil => simp [insert, get, h]
  | cons p rest ih =>
    by_cases hp : p.1 = e
    · simp only [insert]
      rw [if_pos hp]
      simp only [get]
      rw [if_neg h, if_neg (hp ▸ h)]
    · simp only [insert]
      rw [if_neg hp]
      simp only [get]
      by_cases hp' : p.1 = e'
      · rw [if_pos hp', if_pos hp']
      · rw [if_neg hp', if_neg hp']
        exact ih

theorem get_removeKey_self {α : Type} (t : ComponentTable α) (e : Entity) :
    get (removeKey t e) e = none := by
  induction t with
  | nil => simp [removeKey, get]
  | cons p rest ih =>
    by_cases h : p.1 = e
    · simp only [removeKey, List.filter]
      rw [show (decide (p.1 ≠ e)) = false by simp [h]]
      exact ih
    · simp only [removeKey, List.filter]
      rw [show (decide (p.1 ≠ e)) = true by simp [h]]
      simp only [get]
      rw [if_neg h]
      exact ih

theorem get_removeKey_other {α : Type} (t : ComponentTable α) (e e' : Entity)
    (h : e ≠ e') : get (removeKey t e) e' = get t e' := by
  induction t with
  | nil => simp [removeKey, get]
  | cons p rest ih =>
    by_cases hp : p.1 = e
    · simp only [removeKey, List.filter]
      rw [show (decide (p.1 ≠ e)) = false by simp [hp]]
      simp only [removeKey] at ih
      rw [ih]
      simp only [get]
      rw [if_neg (by rw [hp]; exact h)]
    · simp only [removeKey, List.filter]
      rw [show (decide (p.1 ≠ e)) = true by simp [hp]]
      simp only [get]
      by_cases hp' : p.1 = e'
      · rw [if_pos hp', if_pos hp']
      · rw [if_neg hp', if_neg hp']
        exact ih

end ComponentTable

/-!
## Inventory
-/

/-- `Inventory` (world.rs): a fixed list of optional item-entity slots. -/
structure Inventory where
  slots : List (Option Entity)
deriving DecidableEq

/-- `InventoryIsFull` / `InventorySlotIsEmpty` error markers. -/
inductive InventoryError where
  | inventoryIsFull
  | inventorySlotIsEmpty
deriving DecidableEq

namespace Inventory

/-- `Inventory::new(capacity)`. -/
def new (capacity : Nat) : Inventory := ⟨List.replicate capacity none⟩

/-- Replace the first `none` slot of the list with `some item`. -/
def fillFirstFree (slots : List (Option Entity)) (item : Entity) :
    Option (List (Option Entity)) :=
  match slots with
  | [] => none
  | none :: rest => some (some item :: rest)
  | some x :: rest => (fillFirstFree rest item).map (fun r => some x :: r)

/-- `Inventory::insert`: place the item in the first free slot, or fail if
the inventory is full. -/
def insert (inv : Inventory) (item : Entity) : Except InventoryError Inventory :=
  match fillFirstFree inv.slots item with
  | some slots => Except.ok ⟨slots⟩
  | none => Except.error InventoryError.inventoryIsFull

/-- `Inventory::remove(index)`: take the item out of the given slot. -/
def remove (inv : Inventory) (index : Nat) :
    Except InventoryError (Entity × Inventory) :=
  match inv.slots.get? index with
  | some (some item) => Except.ok (item, ⟨inv.slots.set index none⟩)
  | some none => Except.error InventoryError.inventorySlotIsEmpty
  | none => Except.error InventoryError.inventorySlotIsEmpty

/-- `Inventory::get(index)`. -/
def getSlot (inv : Inventory) (index : Nat) : Except InventoryError Entity :=
  match inv.slots.get? index with
  | some (some item) => Except.ok item
  | some none => Except.error InventoryError.inventorySlotIsEmpty
  | none => Except.error InventoryError.inventorySlotIsEmpty

end Inventory

/-!
## Spatial table

`spatial_table::SpatialTable` maintains a location per entity and at most one
occupant per (cell, layer).  We model it as an entity-to-location table; the
per-cell occupancy view is derived by lookup, and `Wf` states the occupancy
invariant the real structure maintains.
-/

/-- The five-layer occupancy view of one cell (`layers_at`). -/
structure Layers where
  floor : Option Entity
  character : Option Entity
  object : Option Entity
  feature : Option Entity
  projectile : Option Entity
deriving DecidableEq

/-- Errors of spatial updates; `occupiedBy` is the error consumed by
`unwrap_occupied_by`, `missing` stands for operating on an entity with no
location (a panic at every call site that unwraps). -/
inductive UpdateError where
  | occupiedBy (e : Entity)
  | missing
deriving DecidableEq

/-- The layered spatial index. -/
structure SpatialTable where
  gridSize : Size
  entries : ComponentTable Location
deriving DecidableEq

namespace SpatialTable

/-- `location_of`. -/
def locationOf (st : SpatialTable) (e : Entity) : Option Location :=
  st.entries.get e

/-- `coord_of`. -/
def coordOf (st : SpatialTable) (e : Entity) : Option Coord :=
  (locationOf st e).map (fun loc => loc.coord)

/-- `layer_of`. -/
def layerOf (st : SpatialTable) (e : Entity) : Option Layer :=
  (locationOf st e).bind (fun loc => loc.layer)

/-- The occupant of a (cell, layer) slot, derived from the entries. -/
def entityAt (st : SpatialTable) (c : Coord) (l : Layer) : Option Entity :=
  (st.entries.find? (fun p => decide (p.2 = ⟨c, some l⟩))).map (fun p => p.1)

/-- `layers_at` / `layers_at_checked` (bounds are checked at call sites). -/
def layersAt (st : SpatialTable) (c : Coord) : Layers :=
  ⟨entityAt st c .floor, entityAt st c .character, entityAt st c .object,
    entityAt st c .feature, entityAt st c .projectile⟩

/-- The occupant of a slot other than `e` itself, if any. -/
def occupiedByOther (st : SpatialTable) (e : Entity) (c : Coord) (l : Layer) :
    Option Entity :=
  match entityAt st c l with
  | some o => if o = e then none else some o
  | none => none

/-- `SpatialTable::update(entity, location)`: fails iff the target layered
slot is held by another entity. -/
def update (st : SpatialTable) (e : Entity) (loc : Location) :
    Except UpdateError SpatialTable :=
  match loc.layer with
  | none => Except.ok ⟨st.gridSize, st.entries.insert e loc⟩
  | some l =>
    match occupiedByOther st e loc.coord l with
    | some o => Except.error (UpdateError.occupiedBy o)
    | none => Except.ok ⟨st.gridSize, st.entries.insert e loc⟩

/-- `SpatialTable::update_coord(entity, coord)`: keep the layer, change the
coordinate. -/
def updateCoord (st : SpatialTable) (e : Entity) (c : Coord) :
    Except UpdateError SpatialTable :=
  match locationOf st e with
  | none => Except.error UpdateError.missing
  | some loc => update st e ⟨c, loc.layer⟩

/-- `SpatialTable::update_layer(entity, layer)`: keep the coordinate, change
the layer. -/
def updateLayer (st : SpatialTable) (e : Entity) (l : Layer) :
    Except UpdateError SpatialTable :=
  match locationOf st e with
  | none => Except.error UpdateError.missing
  | some loc => update st e ⟨loc.coord, some l⟩

/-- `SpatialTable::remove(entity)`. -/
def removeEnt (st : SpatialTable) (e : Entity) : SpatialTable :=
  ⟨st.gridSize, st.entries.removeKey e⟩

/-- Well-formedness maintained by the real spatial table: one location per
entity, at most one occupant per layered slot. -/
def Wf (st : SpatialTable) : Prop :=
  (st.entries.map Prod.fst).Nodup ∧
    ∀ p ∈ st.entries, ∀ q ∈ st.entries,
      p.2.coord = q.2.coord → p.2.layer = q.2.layer → p.2.layer ≠ none → p.1 = q.1

instance (st : SpatialTable) : Decidable (Wf st) := by
  unfold Wf
  infer_instance

end SpatialTable

/-!
## Randomness

`rand::Rng` is modelled as an explicit stream of naturals; each draw takes
the head (0 when exhausted) and advances.  `gen::<CardinalDirection>()` picks
uniformly among the four directions; `gen_range(0..hi)` reduces the draw into
the range and panics (`none`) when the range is empty.
-/

/-- A deterministic stream of random draws. -/
abbrev Rng : Type := List Nat

/-- The next raw draw. -/
def Rng.peek (r : Rng) : Nat := r.headD 0

/-- The stream after one draw. -/
def Rng.rest (r : Rng) : Rng := r.tail

/-- Reduce a raw draw to one of the four cardinal directions. -/
def natToCardinal (n : Nat) : CardinalDirection :=
  match n % 4 with
  | 0 => CardinalDirection.north
  | 1 => CardinalDirection.east
  | 2 => CardinalDirection.south
  | _ => CardinalDirection.west

/-- `rng.gen::<CardinalDirection>()`. -/
def Rng.genCardinal (r : Rng) : CardinalDirection × Rng :=
  (natToCardinal (Rng.peek r), Rng.rest r)

/-- `rng.gen_range(0..hi)` on i32: uniform in `[0, hi)`; an empty range is a
panic in the rand crate. -/
def Rng.genRange0 (hi : Int) (r : Rng) : Option (Int × Rng) :=
  if hi ≤ 0 then none
  else some (((Rng.peek r % hi.toNat : Nat) : Int), Rng.rest r)

/-!
## The world
-/

/-- `World` (world.rs): the entity allocator, the component tables and the
spatial index.  The allocator is modelled as a fresh-id counter. -/
structure World where
  nextEntity : Nat
  tile : ComponentTable Tile
  npcType : ComponentTable NpcType
  hitPoints : ComponentTable HitPoints
  item : ComponentTable ItemType
  inventory : ComponentTable Inventory
  trajectory : ComponentTable (List CardinalDirection)
  projectileTy : ComponentTable ProjectileType
  confusionCountdown : ComponentTable Nat
  baseDamage : ComponentTable Int
  strength : ComponentTable Int
  dexterity : ComponentTable Int
  intelligence : ComponentTable Int
  equipHeld : ComponentTable Nat
  equipWorn : ComponentTable Nat
  spatialTable : SpatialTable
deriving DecidableEq

namespace World

/-- `World::remove_entity`: drop all components and the spatial placement. -/
def removeEntity (w : World) (e : Entity) : World :=
  { w with
    tile := w.tile.removeKey e
    npcType := w.npcType.removeKey e
    hitPoints := w.hitPoints.removeKey e
    item := w.item.removeKey e
    inventory := w.inventory.removeKey e
    trajectory := w.trajectory.removeKey e
    projectileTy := w.projectileTy.removeKey e
    confusionCountdown := w.confusionCountdown.removeKey e
    baseDamage := w.baseDamage.removeKey e
    strength := w.strength.removeKey e
    dexterity := w.dexterity.removeKey e
    intelligence := w.intelligence.removeKey e
    equipHeld := w.equipHeld.removeKey e
    equipWorn := w.equipWorn.removeKey e
    spatialTable := w.spatialTable.removeEnt e }

/-- `World::has_projectiles`. -/
def hasProjectiles (w : World) : Bool :=
  !(w.trajectory.isEmpty)

end World

/-!
## Combat arithmetic (world.rs `character_bump_attack`)
-/

/-- `i32::saturating_sub`: saturates at the i32 bounds (not at zero). -/
def i32SaturatingSub (a b : Int) : Int :=
  max (min (a - b) 2147483647) (-2147483648)

/-- `as u32` applied to an i32 value: two's-complement reinterpretation. -/
def i32ToU32 (a : Int) : Nat := (a % 4294967296).toNat

/-- Net bump-attack damage exactly as world.rs computes it:
`gross_damage.saturating_sub(damage_reduction) as u32` where
`gross_damage = attacker_base_damage + strength_roll` (all i32). -/
def netDamage (baseDamage strengthRoll dexRoll : Int) : Nat :=
  i32ToU32 (i32SaturatingSub (baseDamage + strengthRoll) dexRoll)

/-- Net bump-attack damage as the specification states it:
`net damage = max(0, gross − reduction)`. -/
def specNetDamage (baseDamage strengthRoll dexRoll : Int) : Int :=
  max 0 ((baseDamage + strengthRoll) - dexRoll)

namespace World

/-- `World::character_die`: re-parent the dying character onto the Object
layer (destroying any current Object occupant first) and swap its tile for
the corpse variant.  `none` models the panics (`unwrap_occupied_by` on a
different error, unexpected tile). -/
def characterDie (w : World) (entity : Entity) : Option World :=
  let afterLayer : Option World :=
    match w.spatialTable.updateLayer entity Layer.object with
    | Except.ok st => some { w with spatialTable := st }
    | Except.error (UpdateError.occupiedBy occupant) =>
      let w1 := removeEntity w occupant
      match w1.spatialTable.updateLayer entity Layer.object with
      | Except.ok st => some { w1 with spatialTable := st }
      | Except.error _ => none
    | Except.error UpdateError.missing => none
  match afterLayer with
  | none => none
  | some w1 =>
    match w1.tile.get entity with
    | some Tile.player =>
      some { w1 with tile := w1.tile.insert entity Tile.playerCorpse }
    | some (Tile.npc npcType) =>
      some { w1 with tile := w1.tile.insert entity (Tile.npcCorpse npcType) }
    | _ => none

/-- `World::character_damage`: saturating HP reduction; reaching 0 triggers
the death transition and reports that the victim dies. -/
def characterDamage (w : World) (victim : Entity) (damage : Nat) :
    Option (World × Bool) :=
  match w.hitPoints.get victim with
  | none => some (w, false)
  | some hp =>
    let newCurrent := hp.current - damage
    let w1 := { w with hitPoints := w.hitPoints.insert victim ⟨newCurrent, hp.max⟩ }
    if newCurrent = 0 then
      (characterDie w1 victim).map (fun w2 => (w2, true))
    else
      some (w1, false)

/-- `World::character_bump_attack`. -/
def characterBumpAttack (w : World) (victim attacker : Entity) (rng : Rng) :
    Option (World × BumpAttackOutcome × Rng) := do
  let attackerBaseDamage ← w.baseDamage.get attacker
  let attackerStrength ← w.strength.get attacker
  let victimDexterity ← w.dexterity.get victim
  let (strengthRoll, rng) ← Rng.genRange0 (attackerStrength + 1) rng
  let (dexRoll, rng) ← Rng.genRange0 (victimDexterity + 1) rng
  let nd := netDamage attackerBaseDamage strengthRoll dexRoll
  if nd = 0 then
    some (w, BumpAttackOutcome.dodge, rng)
  else do
    let (w1, died) ← characterDamage w victim nd
    if died then some (w1, BumpAttackOutcome.kill, rng)
    else some (w1, BumpAttackOutcome.hit, rng)

/-- `World::write_combat_log_messages`. -/
def writeCombatLogMessages (attackerIsPlayer : Bool) (outcome : BumpAttackOutcome)
    (npcType : NpcType) (messageLog : List LogMessage) : List LogMessage :=
  if attackerIsPlayer then
    match outcome with
    | BumpAttackOutcome.kill => messageLog ++ [LogMessage.playerKillsNpc npcType]
    | BumpAttackOutcome.hit => messageLog ++ [LogMessage.playerAttacksNpc npcType]
    | BumpAttackOutcome.dodge => messageLog ++ [LogMessage.npcDodges npcType]
  else
    match outcome with
    | BumpAttackOutcome.kill => messageLog ++ [LogMessage.npcKillsPlayer npcType]
    | BumpAttackOutcome.hit => messageLog ++ [LogMessage.npcAttacksPlayer npcType]
    | BumpAttackOutcome.dodge => messageLog ++ [LogMessage.playerDodges npcType]

/-- The tail of `World::maybe_move_character` once the effective movement
direction has been resolved: bump attack, feature block, or coordinate
update. -/
def moveResolve (w : World) (characterEntity : Entity) (characterCoord : Coord)
    (direction : CardinalDirection) (messageLog : List LogMessage) (rng : Rng) :
    Option (World × List LogMessage × Rng) :=
  let newCharacterCoord := characterCoord.add direction.coord
  if newCharacterCoord.isValid w.spatialTable.gridSize then
    let destLayers := w.spatialTable.layersAt newCharacterCoord
    match destLayers.character with
    | some destCharacterEntity =>
      let characterIsNpc := w.npcType.get characterEntity
      let destCharacterIsNpc := w.npcType.get destCharacterEntity
      if characterIsNpc.isSome ≠ destCharacterIsNpc.isSome then
        match characterBumpAttack w destCharacterEntity characterEntity rng with
        | none => none
        | some (w1, outcome, rng1) =>
          match characterIsNpc.orElse (fun _ => destCharacterIsNpc) with
          | none => none
          | some npcType =>
            some (w1,
              writeCombatLogMessages characterIsNpc.isNone outcome npcType messageLog,
              rng1)
      else some (w, messageLog, rng)
    | none =>
      if destLayers.feature.isSome then some (w, messageLog, rng)
      else
        match w.spatialTable.updateCoord characterEntity newCharacterCoord with
        | Except.ok st => some ({ w with spatialTable := st }, messageLog, rng)
        | Except.error _ => none
  else some (w, messageLog, rng)

/-- `World::maybe_move_character`: confusion handling (discard the requested
direction, draw a random one, decrement or clear the countdown) followed by
`moveResolve`. -/
def maybeMoveCharacter (w : World) (characterEntity : Entity)
    (direction : CardinalDirection) (messageLog : List LogMessage) (rng : Rng) :
    Option (World × List LogMessage × Rng) :=
  match w.spatialTable.coordOf characterEntity with
  | none => none
  | some characterCoord =>
    match w.confusionCountdown.get characterEntity with
    | some confusionCountdown =>
      let (w1, messageLog1) :=
        if confusionCountdown = 0 then
          ({ w with
              confusionCountdown := w.confusionCountdown.removeKey characterEntity },
            match w.npcType.get characterEntity with
            | some npcType => messageLog ++ [LogMessage.npcIsNoLongerConfused npcType]
            | none => messageLog)
        else
          ({ w with
              confusionCountdown :=
                w.confusionCountdown.insert characterEntity (confusionCountdown - 1) },
            messageLog)
      let (randomDirection, rng1) := Rng.genCardinal rng
      moveResolve w1 characterEntity characterCoord randomDirection messageLog1 rng1
    | none => moveResolve w characterEntity characterCoord direction messageLog rng

end World

/-!
## Item pickup and use
-/

/-- Coordinate subtraction (`Coord - Coord`). -/
def Coord.sub (a b : Coord) : Coord := ⟨a.x - b.x, a.y - b.y⟩

/-- Modelled after `line_2d::CardinalStepIter` (external crate): the
straight-line sequence of `|dx| + |dy|` cardinal steps tracing the delta,
stepping along the axis with the larger remaining magnitude first.  No claim
depends on the exact interleaving of the two axes. -/
def cardinalStepsAux : Nat → Int → Int → List CardinalDirection
  | 0, _, _ => []
  | n + 1, dx, dy =>
    if dx.natAbs ≥ dy.natAbs then
      if 0 ≤ dx then
        CardinalDirection.east :: cardinalStepsAux n (dx - 1) dy
      else
        CardinalDirection.west :: cardinalStepsAux n (dx + 1) dy
    else
      if 0 ≤ dy then
        CardinalDirection.south :: cardinalStepsAux n dx (dy - 1)
      else
        CardinalDirection.north :: cardinalStepsAux n dx (dy + 1)

/-- `CardinalStepIter::new(delta)`. -/
def cardinalStepIterNew (delta : Coord) : List CardinalDirection :=
  cardinalStepsAux (delta.x.natAbs + delta.y.natAbs) delta.x delta.y

namespace World

/-- `World::spawn_projectile`: allocate an entity at the source coordinate on
the Projectile layer, carrying the projectile payload and the step sequence
toward the target.  `none` models the `.unwrap()` on the spatial insert. -/
def spawnProjectile (w : World) (src dst : Coord) (pt : ProjectileType) :
    Option World :=
  let entity := w.nextEntity
  match w.spatialTable.update entity ⟨src, some Layer.projectile⟩ with
  | Except.error _ => none
  | Except.ok st =>
    some { w with
      nextEntity := w.nextEntity + 1
      spatialTable := st
      tile := w.tile.insert entity (Tile.projectile pt)
      projectileTy := w.projectileTy.insert entity pt
      trajectory := w.trajectory.insert entity (cardinalStepIterNew (dst.sub src)) }

/-- `World::maybe_get_item`. -/
def maybeGetItem (w : World) (character : Entity) (messageLog : List LogMessage) :
    Option (World × List LogMessage × Except Unit Unit) :=
  match w.spatialTable.coordOf character with
  | none => none
  | some coord =>
    let objectSlot := (w.spatialTable.layersAt coord).object
    let itemHere : Option (Entity × ItemType) :=
      match objectSlot with
      | some objectEntity =>
        match w.item.get objectEntity with
        | some itemType => some (objectEntity, itemType)
        | none => none
      | none => none
    match itemHere with
    | some (objectEntity, itemType) =>
      match w.inventory.get character with
      | none => none
      | some inventory =>
        match inventory.insert objectEntity with
        | Except.ok inventory1 =>
          some ({ w with
              inventory := w.inventory.insert character inventory1
              spatialTable := w.spatialTable.removeEnt objectEntity },
            messageLog ++ [LogMessage.playerGets itemType], Except.ok ())
        | Except.error _ =>
          some (w, messageLog ++ [LogMessage.playerInventoryIsFull], Except.error ())
    | none =>
      some (w, messageLog ++ [LogMessage.noItemUnderPlayer], Except.error ())

/-- `World::maybe_use_item`. -/
def maybeUseItem (w : World) (character : Entity) (inventoryIndex : Nat)
    (messageLog : List LogMessage) :
    Option (World × List LogMessage × Except Unit ItemUsage) :=
  match w.inventory.get character with
  | none => none
  | some inventory =>
    match inventory.getSlot inventoryIndex with
    | Except.error _ =>
      some (w, messageLog ++ [LogMessage.noItemInInventorySlot], Except.error ())
    | Except.ok item =>
      match w.item.get item with
      | none => none
      | some itemType =>
        match itemType with
        | ItemType.healthPotion =>
          match w.hitPoints.get character with
          | none => none
          | some hp =>
            let healed := min hp.max (hp.current + 5)
            match inventory.remove inventoryIndex with
            | Except.error _ => none
            | Except.ok (_, inventory1) =>
              some ({ w with
                  hitPoints := w.hitPoints.insert character ⟨healed, hp.max⟩
                  inventory := w.inventory.insert character inventory1 },
                messageLog ++ [LogMessage.playerHeals], Except.ok ItemUsage.immediate)
        | ItemType.fireballScroll => some (w, messageLog, Except.ok ItemUsage.aim)
        | ItemType.confusionScroll => some (w, messageLog, Except.ok ItemUsage.aim)
        | ItemType.sword =>
          some ({ w with equipHeld := w.equipHeld.insert character inventoryIndex },
            messageLog, Except.ok ItemUsage.immediate)
        | ItemType.staff =>
          some ({ w with equipHeld := w.equipHeld.insert character inventoryIndex },
            messageLog, Except.ok ItemUsage.immediate)
        | ItemType.armour =>
          some ({ w with equipWorn := w.equipWorn.insert character inventoryIndex },
            messageLog, Except.ok ItemUsage.immediate)
        | ItemType.robe =>
          some ({ w with equipWorn := w.equipWorn.insert character inventoryIndex },
            messageLog, Except.ok ItemUsage.immediate)

/-- `World::maybe_use_item_aim`: the outer `Option` models the panic-free
paths (`none` is a panic), the inner `Except` value the recoverable failure
returned to the caller; the world and message log are returned alongside so
the statements can speak about what the call left unchanged. -/
def maybeUseItemAim (w : World) (character : Entity) (inventoryIndex : Nat)
    (target : Coord) (messageLog : List LogMessage) :
    Option (World × List LogMessage × Except Unit Unit) :=
  match w.spatialTable.coordOf character with
  | none => none
  | some characterCoord =>
    if characterCoord = target then some (w, messageLog, Except.error ())
    else
      match w.inventory.get character with
      | none => none
      | some inventory =>
        match inventory.remove inventoryIndex with
        | Except.error _ => none
        | Except.ok (itemEntity, inventory1) =>
          let w1 := { w with inventory := w.inventory.insert character inventory1 }
          match w1.item.get itemEntity with
          | none => none
          | some ItemType.fireballScroll =>
            match w1.intelligence.get character with
            | none => none
            | some intelligence =>
              let fireball := ProjectileType.fireball intelligence.toNat
              let messageLog1 :=
                messageLog ++ [LogMessage.playerLaunchesProjectile fireball]
              (spawnProjectile w1 characterCoord target fireball).map
                (fun w2 => (w2, messageLog1, Except.ok ()))
          | some ItemType.confusionScroll =>
            match w1.intelligence.get character with
            | none => none
            | some intelligence =>
              let confusion := ProjectileType.confusion (intelligence.toNat * 3)
              let messageLog1 :=
                messageLog ++ [LogMessage.playerLaunchesProjectile confusion]
              (spawnProjectile w1 characterCoord target confusion).map
                (fun w2 => (w2, messageLog1, Except.ok ()))
          | some _ => none

end World

/-!
## Projectile ticking (world.rs `move_projectiles`)
-/

/-- The accumulators of the projectile pass: entities to destroy and the
queued fireball / confusion effects. -/
structure ProjectileAcc where
  entitiesToRemove : List Entity
  fireballHit : List (Entity × Nat)
  confusionHit : List (Entity × Nat)
deriving DecidableEq

namespace World

/-- One iteration of the `move_projectiles` loop body for the projectile
`entity` whose (pre-call) remaining trajectory is `traj`. -/
def projectileStep (wacc : World × ProjectileAcc)
    (p : Entity × List CardinalDirection) : Option (World × ProjectileAcc) :=
  let (w, acc) := wacc
  let (entity, traj) := p
  match traj with
  | [] =>
    some (w, { acc with entitiesToRemove := acc.entitiesToRemove ++ [entity] })
  | direction :: rest =>
    let w := { w with trajectory := w.trajectory.insert entity rest }
    match w.spatialTable.coordOf entity with
    | none => none
    | some currentCoord =>
      let newCoord := currentCoord.add direction.coord
      if newCoord.isValid w.spatialTable.gridSize then
        let destLayers := w.spatialTable.layersAt newCoord
        let acc :=
          if destLayers.feature.isSome then
            { acc with entitiesToRemove := acc.entitiesToRemove ++ [entity] }
          else
            match destLayers.character with
            | some character =>
              let acc1 :=
                { acc with entitiesToRemove := acc.entitiesToRemove ++ [entity] }
              match w.projectileTy.get entity with
              | some (ProjectileType.fireball damage) =>
                { acc1 with fireballHit := acc1.fireballHit ++ [(character, damage)] }
              | some (ProjectileType.confusion duration) =>
                { acc1 with confusionHit := acc1.confusionHit ++ [(character, duration)] }
              | none => acc1
            | none => acc
        let st :=
          match w.spatialTable.updateCoord entity newCoord with
          | Except.ok st => st
          | Except.error _ => w.spatialTable
        some ({ w with spatialTable := st }, acc)
      else none

/-- The full pass over the trajectory table (iterated in table order, the
spatial positions updating as it goes). -/
def projectilePass (w : World) : Option (World × ProjectileAcc) :=
  w.trajectory.foldlM projectileStep (w, ⟨[], [], []⟩)

/-- Application of one queued fireball hit, after the pass. -/
def applyFireballHit (s : World × List LogMessage) (p : Entity × Nat) :
    Option (World × List LogMessage) :=
  let (w, msgs) := s
  let (entity, damage) := p
  let maybeNpc := w.npcType.get entity
  match characterDamage w entity damage with
  | none => none
  | some (w1, died) =>
    if died then
      match maybeNpc with
      | some npc => some (w1, msgs ++ [LogMessage.npcDies npc])
      | none => some (w1, msgs)
    else some (w1, msgs)

/-- Application of one queued confusion hit, after the pass. -/
def applyConfusionHit (s : World × List LogMessage) (p : Entity × Nat) :
    World × List LogMessage :=
  let (w, msgs) := s
  let (entity, duration) := p
  let w1 := { w with confusionCountdown := w.confusionCountdown.insert entity duration }
  match w1.npcType.get entity with
  | some npcType => (w1, msgs ++ [LogMessage.npcBecomesConfused npcType])
  | none => (w1, msgs)

/-- `World::move_projectiles`: one pass advancing every projectile and
collecting removals and hits, then the removals, then the queued fireball
effects, then the queued confusion effects. -/
def moveProjectiles (w : World) (messageLog : List LogMessage) :
    Option (World × List LogMessage) := do
  let (w1, acc) ← projectilePass w
  let w2 := acc.entitiesToRemove.foldl removeEntity w1
  let (w3, messageLog1) ← acc.fireballHit.foldlM applyFireballHit (w2, messageLog)
  let (w4, messageLog2) := acc.confusionHit.foldl applyConfusionHit (w3, messageLog1)
  some (w4, messageLog2)

end World

/-!
## Visibility (visibility.rs)
-/

/-- One cell of the visibility grid holds the `last_seen` counter stamp; the
grid is modelled as a total stamp function restricted by the grid bounds. -/
structure VisibilityGrid where
  gridSize : Size
  lastSeen : Coord → Nat
  count : Nat

/-- What `VisibilityGrid::update` stamps: every cell (omniscient mode) or the
set of cells visited by the shadowcast sweep.  The sweep itself lives in the
external `shadowcast` crate; modelled from the spec, which guarantees the
sweep visits its origin, it is the origin plus an arbitrary further visited
set. -/
inductive SweepSpec where
  | omniscient
  | shadowcast (visited : List Coord)

namespace VisibilityGrid

/-- `Grid::get`: `none` out of bounds. -/
def get (g : VisibilityGrid) (c : Coord) : Option Nat :=
  if c.isValid g.gridSize then some (g.lastSeen c) else none

/-- `VisibilityGrid::new(size)`: all stamps 0, counter 1. -/
def new (s : Size) : VisibilityGrid := ⟨s, fun _ => 0, 1⟩

/-- `VisibilityGrid::cell_visibility`. -/
def cellVisibility (g : VisibilityGrid) (c : Coord) : CellVisibility :=
  match get g c with
  | some lastSeen =>
    if lastSeen = g.count then CellVisibility.currently
    else if lastSeen = 0 then CellVisibility.never
    else CellVisibility.previously
  | none => CellVisibility.never

/-- `VisibilityGrid::update(player_coord, ...)`: increment the counter, then
stamp either every cell or exactly the swept cells (`get_checked_mut` panics
— `none` — if a swept cell is out of bounds). -/
def update (g : VisibilityGrid) (playerCoord : Coord) (sweep : SweepSpec) :
    Option VisibilityGrid :=
  let cnt := g.count + 1
  match sweep with
  | SweepSpec.omniscient =>
    some ⟨g.gridSize,
      fun c => if c.isValid g.gridSize then cnt else g.lastSeen c, cnt⟩
  | SweepSpec.shadowcast visited =>
    let vis := playerCoord :: visited
    if vis.all (fun c => c.isValid g.gridSize) then
      some ⟨g.gridSize, fun c => if c ∈ vis then cnt else g.lastSeen c, cnt⟩
    else none

/-- A whole history of updates applied to a grid. -/
def applyUpdates (g : VisibilityGrid) :
    List (Coord × SweepSpec) → Option VisibilityGrid
  | [] => some g
  | u :: us =>
    match update g u.1 u.2 with
    | none => none
    | some g1 => applyUpdates g1 us

end VisibilityGrid

/-!
## Game state orchestrator (game.rs)

`Agent::act` searches a distance map living in the external
`grid_search_cardinal` crate; it is abstracted here as a decision oracle
passed to the orchestrator (the claims below hold for every oracle).
`BehaviourContext` and the shadowcast scratch context carry no game-visible
state and are omitted.
-/

namespace World

/-- `World::is_living_character`. -/
def isLivingCharacter (w : World) (e : Entity) : Bool :=
  decide (w.spatialTable.layerOf e = some Layer.character)

end World

/-- `GameState` (game.rs), restricted to its game-visible fields. -/
structure GameState where
  world : World
  playerEntity : Entity
  visibilityGrid : VisibilityGrid
  aiState : ComponentTable Unit
  messageLog : List LogMessage
  rng : Rng
  dungeonLevel : Nat

namespace GameState

/-- `GameState::has_animations`. -/
def hasAnimations (gs : GameState) : Bool :=
  World.hasProjectiles gs.world

/-- `GameState::ai_turn`: prune dead agents, then let every remaining agent
act through `World::maybe_move_character`. -/
def aiTurn (act : Entity → World → NpcAction) (gs : GameState) : Option GameState :=
  let deadEntities :=
    gs.aiState.keys.filter (fun e => !(World.isLivingCharacter gs.world e))
  let aiState1 := deadEntities.foldl ComponentTable.removeKey gs.aiState
  let init : World × List LogMessage × Rng := (gs.world, gs.messageLog, gs.rng)
  match aiState1.foldlM
      (fun (s : World × List LogMessage × Rng) (p : Entity × Unit) =>
        match act p.1 s.1 with
        | NpcAction.wait => some s
        | NpcAction.move direction =>
          World.maybeMoveCharacter s.1 p.1 direction s.2.1 s.2.2)
      init with
  | none => none
  | some (w, msgs, rng) =>
    some { gs with world := w, messageLog := msgs, rng := rng, aiState := aiState1 }

/-- `GameState::wait_player`. -/
def waitPlayer (act : Entity → World → NpcAction) (gs : GameState) :
    Option GameState :=
  if hasAnimations gs then some gs else aiTurn act gs

/-- `GameState::maybe_move_player`. -/
def maybeMovePlayer (act : Entity → World → NpcAction) (gs : GameState)
    (direction : CardinalDirection) : Option GameState :=
  if hasAnimations gs then some gs
  else
    match World.maybeMoveCharacter gs.world gs.playerEntity direction
        gs.messageLog gs.rng with
    | none => none
    | some (w, msgs, rng) =>
      aiTurn act { gs with world := w, messageLog := msgs, rng := rng }

/-- `GameState::maybe_player_get_item`. -/
def maybePlayerGetItem (act : Entity → World → NpcAction) (gs : GameState) :
    Option GameState :=
  if hasAnimations gs then some gs
  else
    match World.maybeGetItem gs.world gs.playerEntity gs.messageLog with
    | none => none
    | some (w, msgs, r) =>
      let gs1 := { gs with world := w, messageLog := msgs }
      match r with
      | Except.ok _ => aiTurn act gs1
      | Except.error _ => some gs1

/-- `GameState::maybe_player_use_item`. -/
def maybePlayerUseItem (act : Entity → World → NpcAction) (gs : GameState)
    (inventoryIndex : Nat) : Option (GameState × Except Unit ItemUsage) :=
  if hasAnimations gs then some (gs, Except.error ())
  else
    match World.maybeUseItem gs.world gs.playerEntity inventoryIndex
        gs.messageLog with
    | none => none
    | some (w, msgs, result) =>
      let gs1 := { gs with world := w, messageLog := msgs }
      match result with
      | Except.ok ItemUsage.immediate =>
        (aiTurn act gs1).map (fun gs2 => (gs2, result))
      | _ => some (gs1, result)

end GameState

/-!
## Inventory lemmas and claim C7
-/

namespace Inventory

theorem fillFirstFree_of_mem (slots : List (Option Entity)) (item : Entity)
    (h : none ∈ slots) :
    ∃ i, slots.get? i = some none ∧
      fillFirstFree slots item = some (slots.set i (some item)) := by
  induction slots with
  | nil => cases h
  | cons s rest ih =>
    cases s with
    | none => exact ⟨0, rfl, rfl⟩
    | some x =>
      have h' : none ∈ rest := by
        rcases List.mem_cons.mp h with h1 | h1
        · cases h1
        · exact h1
      obtain ⟨i, h1, h2⟩ := ih h'
      refine ⟨i + 1, ?_, ?_⟩
      · simpa using h1
      · simp [fillFirstFree, h2]

theorem fillFirstFree_eq_none (slots : List (Option Entity)) (item : Entity)
    (h : ¬ none ∈ slots) : fillFirstFree slots item = none := by
  induction slots with
  | nil => rfl
  | cons s rest ih =>
    cases s with
    | none => exact absurd (List.mem_cons_self _ _) h
    | some x =>
      have h' : ¬ none ∈ rest := fun hm => h (List.mem_cons_of_mem _ hm)
      simp [fillFirstFree, ih h']

end Inventory

/-- C7: an inventory with a free slot accepts an insert, placing the item in
the first free slot `i`; removing from slot `i` gives back exactly the
original item and frees the slot, leaving every other slot as it was
(`slots.set i none` differs from the original slots only by that slot being
free again); inserting into a full inventory (no `none` slot) fails with
`InventoryIsFull`, and the failing insert returns no new state at all, so the
caller's inventory is untouched. -/
theorem C7_inventory_round_trip (inv : Inventory) (item : Entity) :
    ((none ∈ inv.slots) →
      ∃ i, inv.slots.get? i = some none ∧
        Inventory.insert inv item = Except.ok ⟨inv.slots.set i (some item)⟩ ∧
        Inventory.remove ⟨inv.slots.set i (some item)⟩ i =
          Except.ok (item, ⟨inv.slots.set i none⟩)) ∧
    ((¬ none ∈ inv.slots) →
      Inventory.insert inv item = Except.error InventoryError.inventoryIsFull) := by
  constructor
  · intro h
    obtain ⟨i, h1, h2⟩ := Inventory.fillFirstFree_of_mem inv.slots item h
    refine ⟨i, h1, ?_, ?_⟩
    · simp [Inventory.insert, h2]
    · have hlen : i < inv.slots.length := by
        by_contra hge
        rw [List.get?_eq_none.mpr (Nat.le_of_not_lt hge)] at h1
        cases h1
      have hget : (inv.slots.set i (some item))[i]? = some (some item) := by
        rw [List.getElem?_eq_getElem (by simpa using hlen)]
        simp [List.getElem_set_self]
      simp [Inventory.remove, hget, List.set_set]
  · intro h
    simp [Inventory.insert, Inventory.fillFirstFree_eq_none inv.slots item h]

/-- C7 witness: a concrete free-slot round trip and a concrete full-inventory
failure, instantiating `C7_inventory_round_trip`. -/
theorem C7_witness :
    (∃ i, (Inventory.mk [some 5, none]).slots.get? i = some none ∧
      Inventory.insert ⟨[some 5, none]⟩ 7 =
        Except.ok ⟨([some 5, none] : List (Option Entity)).set i (some 7)⟩ ∧
      Inventory.remove ⟨([some 5, none] : List (Option Entity)).set i (some 7)⟩ i =
        Except.ok (7, ⟨([some 5, none] : List (Option Entity)).set i none⟩)) ∧
    Inventory.insert ⟨[some 5, some 7]⟩ 9 =
      Except.error InventoryError.inventoryIsFull :=
  ⟨(C7_inventory_round_trip ⟨[some 5, none]⟩ 7).1 (by decide),
    (C7_inventory_round_trip ⟨[some 5, some 7]⟩ 9).2 (by decide)⟩

/-!
## Claim C1: bump-attack net damage
-/

/-- A world with an orc (entity 1, base damage 1, strength 1) adjacent to the
player (entity 2, dexterity 2 after one dexterity level-up, 20/20 HP). -/
def c1World : World where
  nextEntity := 3
  tile := [(1, Tile.npc NpcType.orc), (2, Tile.player)]
  npcType := [(1, NpcType.orc)]
  hitPoints := [(2, ⟨20, 20⟩)]
  item := []
  inventory := []
  trajectory := []
  projectileTy := []
  confusionCountdown := []
  baseDamage := [(1, 1)]
  strength := [(1, 1)]
  dexterity := [(2, 2)]
  intelligence := []
  equipHeld := []
  equipWorn := []
  spatialTable :=
    ⟨⟨5, 5⟩, [(1, ⟨⟨1, 1⟩, some Layer.character⟩), (2, ⟨⟨2, 1⟩, some Layer.character⟩)]⟩

/-- C1: the code computes net damage as
`(gross .saturating_sub dexRoll) as u32` on i32, which does NOT equal
`max(0, gross − reduction)` when the dexterity roll exceeds the gross damage:
with gross = 1 (base damage 1, strength roll 0) and dexterity roll 2, the
code yields 4294967295 where the spec formula yields 0, and a full bump
attack at those rolls instantly kills a 20-HP victim instead of being dodged.
The rolls are reachable with in-game (levelled-up) stats: orc attacker
(base damage 1, strength 1), player victim with dexterity 2. -/
theorem C1_bump_attack_code_bug :
    netDamage 1 0 2 = 4294967295 ∧
    specNetDamage 1 0 2 = 0 ∧
    (World.characterBumpAttack c1World 2 1 [0, 2]).map (fun r => r.2.1) =
      some BumpAttackOutcome.kill ∧
    (World.characterBumpAttack c1World 2 1 [0, 2]).map
        (fun r => r.1.hitPoints.get 2) = some (some ⟨0, 20⟩) := by
  refine ⟨by decide, by decide, ?_, ?_⟩ <;> rfl

/-!
## Claim C10: player turns suppressed while projectiles animate
-/

/-- C10: while `World::has_projectiles()` holds, `maybe_move_player`,
`wait_player` and `maybe_player_get_item` return immediately with the whole
game state unchanged, and `maybe_player_use_item` returns `Err` with the
whole game state unchanged — for every AI decision oracle, direction and
inventory slot. -/
theorem C10_player_turns_suppressed (act : Entity → World → NpcAction)
    (gs : GameState) (direction : CardinalDirection) (inventoryIndex : Nat)
    (h : World.hasProjectiles gs.world = true) :
    GameState.maybeMovePlayer act gs direction = some gs ∧
    GameState.waitPlayer act gs = some gs ∧
    GameState.maybePlayerGetItem act gs = some gs ∧
    GameState.maybePlayerUseItem act gs inventoryIndex =
      some (gs, Except.error ()) := by
  have ha : GameState.hasAnimations gs = true := h
  refine ⟨?_, ?_, ?_, ?_⟩ <;>
    simp [GameState.maybeMovePlayer, GameState.waitPlayer,
      GameState.maybePlayerGetItem, GameState.maybePlayerUseItem, ha]

/-- A world containing one projectile entity (entity 0) with a pending
trajectory. -/
def c10World : World where
  nextEntity := 1
  tile := [(0, Tile.projectile (ProjectileType.fireball 1))]
  npcType := []
  hitPoints := []
  item := []
  inventory := []
  trajectory := [(0, [CardinalDirection.east])]
  projectileTy := [(0, ProjectileType.fireball 1)]
  confusionCountdown := []
  baseDamage := []
  strength := []
  dexterity := []
  intelligence := []
  equipHeld := []
  equipWorn := []
  spatialTable := ⟨⟨4, 4⟩, [(0, ⟨⟨1, 1⟩, some Layer.projectile⟩)]⟩

/-- A concrete game state whose world is `c10World`. -/
def c10GameState : GameState where
  world := c10World
  playerEntity := 7
  visibilityGrid := VisibilityGrid.new ⟨4, 4⟩
  aiState := []
  messageLog := []
  rng := []
  dungeonLevel := 1

/-- C10 witness: the suppression at a concrete game state with one pending
projectile. -/
theorem C10_witness :
    GameState.maybeMovePlayer (fun _ _ => NpcAction.wait) c10GameState
        CardinalDirection.north = some c10GameState ∧
    GameState.waitPlayer (fun _ _ => NpcAction.wait) c10GameState =
      some c10GameState ∧
    GameState.maybePlayerGetItem (fun _ _ => NpcAction.wait) c10GameState =
      some c10GameState ∧
    GameState.maybePlayerUseItem (fun _ _ => NpcAction.wait) c10GameState 0 =
      some (c10GameState, Except.error ()) :=
  C10_player_turns_suppressed (fun _ _ => NpcAction.wait) c10GameState
    CardinalDirection.north 0 (by decide)

/-!
## Spatial table lemmas
-/

namespace ComponentTable

theorem mem_of_get_eq_some {α : Type} {t : ComponentTable α} {e : Entity} {a : α}
    (h : get t e = some a) : (e, a) ∈ t := by
  induction t with
  | nil => cases h
  | cons p rest ih =>
    obtain ⟨e', a'⟩ := p
    by_cases hp : e' = e
    · simp only [get, if_pos hp] at h
      injection h with h
      rw [hp, h]
      exact List.mem_cons_self _ _
    · simp only [get, if_neg hp] at h
      exact List.mem_cons_of_mem _ (ih h)

theorem get_eq_some_of_mem_nodup {α : Type} {t : ComponentTable α} {e : Entity}
    {a : α} (hnd : (t.map Prod.fst).Nodup) (h : (e, a) ∈ t) :
    get t e = some a := by
  induction t with
  | nil => cases h
  | cons p rest ih =>
    obtain ⟨e', a'⟩ := p
    rcases List.mem_cons.mp h with h1 | h1
    · injection h1 with h1a h1b
      simp [get, h1a, h1b]
    · have hp : e' ≠ e := by
        intro he
        have : e ∈ rest.map Prod.fst := by
          exact List.mem_map_of_mem Prod.fst h1
        rw [List.map_cons] at hnd
        exact (List.nodup_cons.mp hnd).1 (he ▸ this)
      simp only [get, if_neg hp]
      exact ih (List.nodup_cons.mp (by rw [List.map_cons] at hnd; exact hnd)).2 h1

end ComponentTable

namespace SpatialTable

theorem entityAt_mem {st : SpatialTable} {c : Coord} {l : Layer} {o : Entity}
    (h : entityAt st c l = some o) :
    (o, (⟨c, some l⟩ : Location)) ∈ st.entries := by
  unfold entityAt at h
  cases hf : st.entries.find? (fun p => decide (p.2 = ⟨c, some l⟩)) with
  | none => rw [hf] at h; cases h
  | some p =>
    rw [hf] at h
    injection h with h
    have hm := List.mem_of_find?_eq_some hf
    have hp := List.find?_some hf
    have hp2 : p.2 = (⟨c, some l⟩ : Location) := of_decide_eq_true hp
    rw [← h, ← hp2]
    exact hm

theorem get_of_entityAt {st : SpatialTable}
    (hnd : (st.entries.map Prod.fst).Nodup) {c : Coord} {l : Layer} {o : Entity}
    (h : entityAt st c l = some o) :
    st.entries.get o = some ⟨c, some l⟩ :=
  ComponentTable.get_eq_some_of_mem_nodup hnd (entityAt_mem h)

theorem entityAt_eq_none_iff {st : SpatialTable} {c : Coord} {l : Layer} :
    entityAt st c l = none ↔
      ∀ p ∈ st.entries, p.2 ≠ (⟨c, some l⟩ : Location) := by
  unfold entityAt
  rw [Option.map_eq_none']
  rw [List.find?_eq_none]
  constructor
  · intro h p hp hc
    exact absurd (decide_eq_true hc) (by simpa using h p hp)
  · intro h p hp
    simpa using h p hp

theorem entityAt_removeEnt_self {st : SpatialTable} {c : Coord} {l : Layer}
    {o : Entity} (hwf : st.Wf) (h : entityAt st c l = some o) :
    entityAt (st.removeEnt o) c l = none := by
  rw [entityAt_eq_none_iff]
  intro p hp hc
  have hmem : p ∈ st.entries ∧ p.1 ≠ o := by
    have := List.mem_filter.mp hp
    exact ⟨this.1, by simpa using this.2⟩
  have hone := hwf.2 p hmem.1 (o, ⟨c, some l⟩) (entityAt_mem h)
    (by rw [hc]) (by rw [hc]) (by rw [hc]; simp)
  exact hmem.2 hone

/-- Two distinct stored locations belong to distinct entities when the
entity-to-location map has no duplicate keys. -/
theorem ne_of_get_ne {st : SpatialTable} {e o : Entity} {le lo : Location}
    (he : st.entries.get e = some le) (ho : st.entries.get o = some lo)
    (hne : le ≠ lo) : e ≠ o := by
  intro h
  rw [h, ho] at he
  injection he with he
  exact hne he.symm

end SpatialTable

/-- A cardinal step never leaves a coordinate in place. -/
theorem Coord.add_dir_ne (c : Coord) (d : CardinalDirection) :
    c.add d.coord ≠ c := by
  obtain ⟨x, y⟩ := c
  cases d <;>
    simp only [Coord.add, CardinalDirection.coord, ne_eq, Coord.mk.injEq,
      not_and] <;>
    intro h <;> omega


/-!
## Claim C4: character death transition
-/

namespace World

theorem characterDie_spec (w : World) (e : Entity) (c : Coord) (t ct : Tile)
    (hwf : w.spatialTable.Wf)
    (hloc : w.spatialTable.locationOf e = some ⟨c, some Layer.character⟩)
    (htile : w.tile.get e = some t)
    (hct : (t = Tile.player ∧ ct = Tile.playerCorpse) ∨
      (∃ k, t = Tile.npc k ∧ ct = Tile.npcCorpse k)) :
    ∃ w', characterDie w e = some w' ∧
      w'.tile.get e = some ct ∧
      w'.spatialTable.locationOf e = some ⟨c, some Layer.object⟩ ∧
      (∀ o, w.spatialTable.entityAt c Layer.object = some o →
        w'.spatialTable.locationOf o = none ∧ w'.tile.get o = none) ∧
      w'.hitPoints.get e = w.hitPoints.get e := by
  cases hAt : w.spatialTable.entityAt c Layer.object with
  | none =>
    have hupd : w.spatialTable.updateLayer e Layer.object =
        Except.ok ⟨w.spatialTable.gridSize,
          w.spatialTable.entries.insert e ⟨c, some Layer.object⟩⟩ := by
      unfold SpatialTable.updateLayer SpatialTable.update SpatialTable.occupiedByOther
      rw [hloc]
      simp [hAt]
    have hdie : characterDie w e =
        some { w with
          spatialTable := ⟨w.spatialTable.gridSize,
            w.spatialTable.entries.insert e ⟨c, some Layer.object⟩⟩
          tile := w.tile.insert e ct } := by
      unfold characterDie
      rw [hupd]
      rcases hct with ⟨ht, hc⟩ | ⟨k, ht, hc⟩ <;> subst ht <;> subst hc <;>
        simp [htile]
    refine ⟨_, hdie, ?_, ?_, ?_, rfl⟩
    · exact ComponentTable.get_insert_self _ _ _
    · exact ComponentTable.get_insert_self _ _ _
    · intro o ho; exact absurd ho (by simp)
  | some o =>
    have hgo : w.spatialTable.entries.get o = some ⟨c, some Layer.object⟩ :=
      SpatialTable.get_of_entityAt hwf.1 hAt
    have hne : e ≠ o :=
      SpatialTable.ne_of_get_ne hloc hgo (by simp)
    have hupd : w.spatialTable.updateLayer e Layer.object =
        Except.error (UpdateError.occupiedBy o) := by
      unfold SpatialTable.updateLayer SpatialTable.update SpatialTable.occupiedByOther
      rw [hloc]
      simp [hAt, Ne.symm hne]
    have hloc1 : (removeEntity w o).spatialTable.locationOf e =
        some ⟨c, some Layer.character⟩ := by
      show (w.spatialTable.removeEnt o).locationOf e = _
      unfold SpatialTable.locationOf SpatialTable.removeEnt
      exact (ComponentTable.get_removeKey_other _ o e (Ne.symm hne)).trans hloc
    have hAt1 : (removeEntity w o).spatialTable.entityAt c Layer.object = none :=
      SpatialTable.entityAt_removeEnt_self hwf hAt
    have hupd1 : (removeEntity w o).spatialTable.updateLayer e Layer.object =
        Except.ok ⟨w.spatialTable.gridSize,
          (w.spatialTable.entries.removeKey o).insert e ⟨c, some Layer.object⟩⟩ := by
      unfold SpatialTable.updateLayer SpatialTable.update SpatialTable.occupiedByOther
      rw [hloc1]
      simp [hAt1]
      exact ⟨rfl, rfl⟩
    have htile1 : (removeEntity w o).tile.get e = some t := by
      show (w.tile.removeKey o).get e = some t
      exact (ComponentTable.get_removeKey_other _ o e (Ne.symm hne)).trans htile
    have hdie : characterDie w e =
        some { removeEntity w o with
          spatialTable := ⟨w.spatialTable.gridSize,
            (w.spatialTable.entries.removeKey o).insert e ⟨c, some Layer.object⟩⟩
          tile := (removeEntity w o).tile.insert e ct } := by
      unfold characterDie
      rw [hupd]
      rcases hct with ⟨ht, hc⟩ | ⟨k, ht, hc⟩ <;> subst ht <;> subst hc <;>
        simp [hupd1, htile1]
    refine ⟨_, hdie, ?_, ?_, ?_, ?_⟩
    · exact ComponentTable.get_insert_self _ _ _
    · exact ComponentTable.get_insert_self _ _ _
    · intro o' ho'
      injection ho' with ho'
      subst ho'
      constructor
      · show ComponentTable.get
          ((w.spatialTable.entries.removeKey o).insert e ⟨c, some Layer.object⟩) o = none
        rw [ComponentTable.get_insert_other _ e o _ hne]
        exact ComponentTable.get_removeKey_self _ o
      · show ComponentTable.get ((removeEntity w o).tile.insert e ct) o = none
        rw [ComponentTable.get_insert_other _ e o _ hne]
        exact ComponentTable.get_removeKey_self _ o
    · show (w.hitPoints.removeKey o).get e = w.hitPoints.get e
      exact ComponentTable.get_removeKey_other _ o e (Ne.symm hne)

end World

/-- C4: for a character entity (Player or Npc tile, Character layer) under
`World::character_damage`, current HP reaching 0 triggers exactly one death
transition — the Tile changes to the corresponding corpse variant
(Player→PlayerCorpse, Npc(k)→NpcCorpse(k)), the spatial layer changes from
Character to Object, and an entity already occupying the Object slot at that
coordinate is destroyed first — while damage leaving current HP above 0
changes nothing but the hit points, so no death transition occurs. -/
theorem C4_death_transition (w : World) (e : Entity) (damage : Nat)
    (hp : HitPoints) (c : Coord) (t ct : Tile)
    (hwf : w.spatialTable.Wf)
    (hhp : w.hitPoints.get e = some hp)
    (hloc : w.spatialTable.locationOf e = some ⟨c, some Layer.character⟩)
    (htile : w.tile.get e = some t)
    (hct : (t = Tile.player ∧ ct = Tile.playerCorpse) ∨
      (∃ k, t = Tile.npc k ∧ ct = Tile.npcCorpse k)) :
    (damage < hp.current →
      World.characterDamage w e damage =
        some ({ w with
          hitPoints := w.hitPoints.insert e ⟨hp.current - damage, hp.max⟩ },
          false)) ∧
    (hp.current ≤ damage →
      ∃ w', World.characterDamage w e damage = some (w', true) ∧
        w'.tile.get e = some ct ∧
        w'.spatialTable.locationOf e = some ⟨c, some Layer.object⟩ ∧
        w'.hitPoints.get e = some ⟨0, hp.max⟩ ∧
        (∀ o, w.spatialTable.entityAt c Layer.object = some o →
          w'.spatialTable.locationOf o = none ∧ w'.tile.get o = none)) := by
  constructor
  · intro hlt
    unfold World.characterDamage
    rw [hhp]
    dsimp only
    rw [if_neg (by omega)]
  · intro hle
    have hzero : hp.current - damage = 0 := by omega
    obtain ⟨w', hdie, hct', hlocO, hforall, hhp'⟩ :=
      World.characterDie_spec
        { w with hitPoints := w.hitPoints.insert e ⟨hp.current - damage, hp.max⟩ }
        e c t ct hwf hloc htile hct
    refine ⟨w', ?_, hct', hlocO, ?_, ?_⟩
    · unfold World.characterDamage
      rw [hhp]
      dsimp only
      rw [if_pos hzero, hdie]
      rfl
    · rw [hhp']
      rw [show ({ w with
          hitPoints := w.hitPoints.insert e ⟨hp.current - damage, hp.max⟩ } :
            World).hitPoints = w.hitPoints.insert e ⟨hp.current - damage, hp.max⟩
          from rfl]
      rw [ComponentTable.get_insert_self, hzero]
    · exact hforall

/-- A world with an orc (entity 1, 2 HP) standing at (1,1) on the Character
layer over a loose item (entity 3) on the Object layer of the same cell. -/
def c4World : World where
  nextEntity := 4
  tile := [(1, Tile.npc NpcType.orc), (3, Tile.item ItemType.healthPotion)]
  npcType := [(1, NpcType.orc)]
  hitPoints := [(1, ⟨2, 2⟩)]
  item := [(3, ItemType.healthPotion)]
  inventory := []
  trajectory := []
  projectileTy := []
  confusionCountdown := []
  baseDamage := [(1, 1)]
  strength := [(1, 1)]
  dexterity := [(1, 1)]
  intelligence := []
  equipHeld := []
  equipWorn := []
  spatialTable :=
    ⟨⟨4, 4⟩, [(1, ⟨⟨1, 1⟩, some Layer.character⟩), (3, ⟨⟨1, 1⟩, some Layer.object⟩)]⟩

/-- C4 witness: at `c4World`, 1 damage to the (2 HP) orc only changes its hit
points, while 5 damage kills it — corpse tile, Object layer, and the item
previously holding the Object slot is destroyed. -/
theorem C4_witness :
    (World.characterDamage c4World 1 1 =
      some ({ c4World with hitPoints := c4World.hitPoints.insert 1 ⟨1, 2⟩ },
        false)) ∧
    (∃ w', World.characterDamage c4World 1 5 = some (w', true) ∧
      w'.tile.get 1 = some (Tile.npcCorpse NpcType.orc) ∧
      w'.spatialTable.locationOf 1 = some ⟨⟨1, 1⟩, some Layer.object⟩ ∧
      w'.hitPoints.get 1 = some ⟨0, 2⟩ ∧
      (∀ o, c4World.spatialTable.entityAt ⟨1, 1⟩ Layer.object = some o →
        w'.spatialTable.locationOf o = none ∧ w'.tile.get o = none)) :=
  ⟨(C4_death_transition c4World 1 1 ⟨2, 2⟩ ⟨1, 1⟩ (Tile.npc NpcType.orc)
      (Tile.npcCorpse NpcType.orc) (by decide) (by decide) (by decide) (by decide)
      (Or.inr ⟨NpcType.orc, rfl, rfl⟩)).1 (by decide),
    (C4_death_transition c4World 1 5 ⟨2, 2⟩ ⟨1, 1⟩ (Tile.npc NpcType.orc)
      (Tile.npcCorpse NpcType.orc) (by decide) (by decide) (by decide) (by decide)
      (Or.inr ⟨NpcType.orc, rfl, rfl⟩)).2 (by decide)⟩

/-!
## Update/preservation lemmas for the spatial table and combat
-/

namespace SpatialTable

theorem update_ok_elim {st st' : SpatialTable} {v : Entity} {loc : Location}
    (h : update st v loc = Except.ok st') :
    st' = ⟨st.gridSize, st.entries.insert v loc⟩ := by
  unfold update at h
  cases hl : loc.layer with
  | none => rw [hl] at h; injection h with h; exact h.symm
  | some l =>
    rw [hl] at h
    dsimp only at h
    cases ho : occupiedByOther st v loc.coord l with
    | none => rw [ho] at h; injection h with h; exact h.symm
    | some o => rw [ho] at h; cases h

theorem updateLayer_ok_elim {st st' : SpatialTable} {v : Entity} {l : Layer}
    (h : updateLayer st v l = Except.ok st') :
    ∃ loc, st.locationOf v = some loc ∧
      st' = ⟨st.gridSize, st.entries.insert v ⟨loc.coord, some l⟩⟩ := by
  unfold updateLayer at h
  cases hl : st.locationOf v with
  | none => rw [hl] at h; cases h
  | some loc =>
    rw [hl] at h
    exact ⟨loc, rfl, update_ok_elim h⟩

theorem updateCoord_ok_elim {st st' : SpatialTable} {v : Entity} {c : Coord}
    (h : updateCoord st v c = Except.ok st') :
    ∃ loc, st.locationOf v = some loc ∧
      st' = ⟨st.gridSize, st.entries.insert v ⟨c, loc.layer⟩⟩ := by
  unfold updateCoord at h
  cases hl : st.locationOf v with
  | none => rw [hl] at h; cases h
  | some loc =>
    rw [hl] at h
    exact ⟨loc, rfl, update_ok_elim h⟩

theorem updateLayer_occupied_elim {st : SpatialTable} {v : Entity} {l : Layer}
    {o : Entity}
    (h : updateLayer st v l = Except.error (UpdateError.occupiedBy o)) :
    ∃ loc, st.locationOf v = some loc ∧ st.entityAt loc.coord l = some o ∧
      o ≠ v := by
  unfold updateLayer at h
  cases hl : st.locationOf v with
  | none => rw [hl] at h; cases h
  | some loc =>
    rw [hl] at h
    unfold update at h
    dsimp only at h
    cases ho : occupiedByOther st v loc.coord l with
    | none => rw [ho] at h; cases h
    | some o' =>
      rw [ho] at h
      injection h with h
      injection h with h
      subst h
      unfold occupiedByOther at ho
      cases hAt : st.entityAt loc.coord l with
      | none => rw [hAt] at ho; cases ho
      | some o2 =>
        rw [hAt] at ho
        dsimp only at ho
        by_cases he : o2 = v
        · rw [if_pos he] at ho; cases ho
        · rw [if_neg he] at ho
          injection ho with ho
          subst ho
          exact ⟨loc, rfl, hAt, he⟩

end SpatialTable

namespace World

/-- `character_die` leaves every component and the spatial placement of an
entity `x` untouched when `x` is neither the dying entity nor the displaced
Object-slot occupant. -/
theorem characterDie_preserves (w : World) (v : Entity) (w' : World)
    (h : characterDie w v = some w') (x : Entity) (hxv : x ≠ v)
    (hxo : ∀ o, w.spatialTable.updateLayer v Layer.object =
      Except.error (UpdateError.occupiedBy o) → x ≠ o) :
    w'.confusionCountdown.get x = w.confusionCountdown.get x ∧
    w'.spatialTable.locationOf x = w.spatialTable.locationOf x ∧
    w'.tile.get x = w.tile.get x ∧
    w'.spatialTable.gridSize = w.spatialTable.gridSize := by
  unfold characterDie at h
  cases hu : w.spatialTable.updateLayer v Layer.object with
  | ok st =>
    rw [hu] at h
    obtain ⟨loc, hloc, hst⟩ := SpatialTable.updateLayer_ok_elim hu
    subst hst
    dsimp only at h
    cases htile : w.tile.get v with
    | none => rw [htile] at h; cases h
    | some t =>
      rw [htile] at h
      cases t <;> dsimp only at h
      case player =>
        injection h with h
        subst h
        refine ⟨rfl, ?_, ?_, rfl⟩
        · exact ComponentTable.get_insert_other _ v x _ (Ne.symm hxv)
        · exact ComponentTable.get_insert_other _ v x _ (Ne.symm hxv)
      case npc k =>
        injection h with h
        subst h
        refine ⟨rfl, ?_, ?_, rfl⟩
        · exact ComponentTable.get_insert_other _ v x _ (Ne.symm hxv)
        · exact ComponentTable.get_insert_other _ v x _ (Ne.symm hxv)
      all_goals cases h
  | error err =>
    cases err with
    | missing => rw [hu] at h; dsimp only at h; cases h
    | occupiedBy o =>
      rw [hu] at h
      have hxo' : x ≠ o := hxo o hu
      dsimp only at h
      cases hu2 : (removeEntity w o).spatialTable.updateLayer v Layer.object with
      | error e2 => rw [hu2] at h; dsimp only at h; cases h
      | ok st2 =>
        rw [hu2] at h
        obtain ⟨loc2, hloc2, hst2⟩ := SpatialTable.updateLayer_ok_elim hu2
        subst hst2
        dsimp only at h
        cases htile : (removeEntity w o).tile.get v with
        | none =>
          rw [htile] at h
          cases h
        | some t =>
          rw [htile] at h
          cases t <;> dsimp only at h
          case player =>
            injection h with h
            subst h
            refine ⟨?_, ?_, ?_, rfl⟩
            · exact ComponentTable.get_removeKey_other _ o x (Ne.symm hxo')
            · show ComponentTable.get
                (((w.spatialTable.removeEnt o).entries).insert v _) x = _
              rw [ComponentTable.get_insert_other _ v x _ (Ne.symm hxv)]
              exact ComponentTable.get_removeKey_other _ o x (Ne.symm hxo')
            · show ComponentTable.get ((w.tile.removeKey o).insert v _) x = _
              rw [ComponentTable.get_insert_other _ v x _ (Ne.symm hxv)]
              exact ComponentTable.get_removeKey_other _ o x (Ne.symm hxo')
          case npc k =>
            injection h with h
            subst h
            refine ⟨?_, ?_, ?_, rfl⟩
            · exact ComponentTable.get_removeKey_other _ o x (Ne.symm hxo')
            · show ComponentTable.get
                (((w.spatialTable.removeEnt o).entries).insert v _) x = _
              rw [ComponentTable.get_insert_other _ v x _ (Ne.symm hxv)]
              exact ComponentTable.get_removeKey_other _ o x (Ne.symm hxo')
            · show ComponentTable.get ((w.tile.removeKey o).insert v _) x = _
              rw [ComponentTable.get_insert_other _ v x _ (Ne.symm hxv)]
              exact ComponentTable.get_removeKey_other _ o x (Ne.symm hxo')
          all_goals cases h

end World

namespace World

/-- `character_damage` leaves unrelated entities' confusion countdown,
location and tile untouched. -/
theorem characterDamage_preserves (w : World) (v : Entity) (dmg : Nat)
    (x : Entity) (r : World × Bool)
    (h : characterDamage w v dmg = some r) (hxv : x ≠ v)
    (hxo : ∀ o, w.spatialTable.updateLayer v Layer.object =
      Except.error (UpdateError.occupiedBy o) → x ≠ o) :
    r.1.confusionCountdown.get x = w.confusionCountdown.get x ∧
    r.1.spatialTable.locationOf x = w.spatialTable.locationOf x ∧
    r.1.tile.get x = w.tile.get x ∧
    r.1.spatialTable.gridSize = w.spatialTable.gridSize := by
  unfold characterDamage at h
  cases hhp : w.hitPoints.get v with
  | none =>
    rw [hhp] at h
    injection h with h
    subst h
    exact ⟨rfl, rfl, rfl, rfl⟩
  | some hp =>
    rw [hhp] at h
    dsimp only at h
    by_cases hz : hp.current - dmg = 0
    · rw [if_pos hz] at h
      cases hdie : characterDie
          { w with hitPoints := w.hitPoints.insert v ⟨hp.current - dmg, hp.max⟩ }
          v with
      | none => rw [hdie] at h; cases h
      | some w2 =>
        rw [hdie] at h
        dsimp only [Option.map] at h
        injection h with h
        subst h
        exact characterDie_preserves _ v w2 hdie x hxv hxo
    · rw [if_neg hz] at h
      injection h with h
      subst h
      exact ⟨rfl, rfl, rfl, rfl⟩

/-- `character_bump_attack` leaves unrelated entities' confusion countdown,
location and tile untouched (the attacker in particular, provided it is
neither the victim nor the victim's displaced Object-slot occupant). -/
theorem characterBumpAttack_preserves (w : World) (victim attacker : Entity)
    (rng : Rng) (x : Entity) (r : World × BumpAttackOutcome × Rng)
    (h : characterBumpAttack w victim attacker rng = some r) (hxv : x ≠ victim)
    (hxo : ∀ o, w.spatialTable.updateLayer victim Layer.object =
      Except.error (UpdateError.occupiedBy o) → x ≠ o) :
    r.1.confusionCountdown.get x = w.confusionCountdown.get x ∧
    r.1.spatialTable.locationOf x = w.spatialTable.locationOf x ∧
    r.1.tile.get x = w.tile.get x ∧
    r.1.spatialTable.gridSize = w.spatialTable.gridSize := by
  unfold characterBumpAttack at h
  cases hbd : w.baseDamage.get attacker with
  | none => rw [hbd] at h; cases h
  | some bd =>
  cases hs : w.strength.get attacker with
  | none => rw [hbd, hs] at h; cases h
  | some s =>
  cases hdx : w.dexterity.get victim with
  | none => rw [hbd, hs, hdx] at h; cases h
  | some dx =>
  rw [hbd, hs, hdx] at h
  dsimp only [bind, Option.bind] at h
  cases hr1 : Rng.genRange0 (s + 1) rng with
  | none => rw [hr1] at h; cases h
  | some p1 =>
  rw [hr1] at h
  dsimp only at h
  cases hr2 : Rng.genRange0 (dx + 1) p1.2 with
  | none => rw [hr2] at h; cases h
  | some p2 =>
  rw [hr2] at h
  dsimp only at h
  by_cases hnd : netDamage bd p1.1 p2.1 = 0
  · rw [if_pos hnd] at h
    injection h with h
    subst h
    exact ⟨rfl, rfl, rfl, rfl⟩
  · rw [if_neg hnd] at h
    cases hcd : characterDamage w victim (netDamage bd p1.1 p2.1) with
    | none => rw [hcd] at h; cases h
    | some q =>
      rw [hcd] at h
      have hpres := characterDamage_preserves w victim _ x q hcd hxv hxo
      dsimp only at h
      cases hq : q.2 with
      | true =>
        rw [hq] at h
        rw [if_pos rfl] at h
        injection h with h
        subst h
        simpa using hpres
      | false =>
        rw [hq] at h
        rw [if_neg (by simp)] at h
        injection h with h
        subst h
        simpa using hpres

/-- `write_combat_log_messages` appends exactly one combat message, never a
confusion-ended message. -/
theorem writeCombatLogMessages_shape (flag : Bool) (outcome : BumpAttackOutcome)
    (npcType : NpcType) (messageLog : List LogMessage) :
    ∃ m, writeCombatLogMessages flag outcome npcType messageLog =
      messageLog ++ [m] ∧ ∀ k, m ≠ LogMessage.npcIsNoLongerConfused k := by
  cases flag <;> cases outcome <;>
    exact ⟨_, rfl, fun k => by simp [writeCombatLogMessages]⟩

end World

namespace World

/-- After `moveResolve` the mover's confusion countdown is untouched, and the
only messages appended are combat messages (never a confusion-ended one). -/
theorem moveResolve_preserves (w : World) (e : Entity) (c : Coord)
    (d : CardinalDirection) (msgs : List LogMessage) (rng : Rng)
    (hwf : w.spatialTable.Wf)
    (hloc : w.spatialTable.locationOf e = some ⟨c, some Layer.character⟩)
    (r : World × List LogMessage × Rng)
    (h : moveResolve w e c d msgs rng = some r) :
    r.1.confusionCountdown.get e = w.confusionCountdown.get e ∧
    ∃ extra, r.2.1 = msgs ++ extra ∧
      ∀ k, LogMessage.npcIsNoLongerConfused k ∉ extra := by
  unfold moveResolve at h
  by_cases hv : (c.add d.coord).isValid w.spatialTable.gridSize = true
  · rw [if_pos hv] at h
    dsimp only at h
    cases hdc : (w.spatialTable.layersAt (c.add d.coord)).character with
    | some destE =>
      rw [hdc] at h
      dsimp only at h
      have hdest : w.spatialTable.entries.get destE =
          some ⟨c.add d.coord, some Layer.character⟩ :=
        SpatialTable.get_of_entityAt hwf.1 hdc
      have hedest : e ≠ destE :=
        SpatialTable.ne_of_get_ne hloc hdest (by
          intro hc
          injection hc with h1 h2
          exact Coord.add_dir_ne c d h1.symm)
      by_cases hx : (w.npcType.get e).isSome ≠ (w.npcType.get destE).isSome
      · rw [if_pos hx] at h
        cases hba : characterBumpAttack w destE e rng with
        | none => rw [hba] at h; cases h
        | some q =>
          rw [hba] at h
          have hxo : ∀ o, w.spatialTable.updateLayer destE Layer.object =
              Except.error (UpdateError.occupiedBy o) → e ≠ o := by
            intro o hu
            obtain ⟨loc, hlo, hAt, _⟩ := SpatialTable.updateLayer_occupied_elim hu
            have hlo2 : loc = ⟨c.add d.coord, some Layer.character⟩ := by
              have hg : w.spatialTable.entries.get destE = some loc := hlo
              rw [hdest] at hg
              injection hg with hg
              exact hg.symm
            subst hlo2
            have hgo := SpatialTable.get_of_entityAt hwf.1 hAt
            exact SpatialTable.ne_of_get_ne hloc hgo (by
              intro hc
              injection hc with hc1 hc2
              exact Coord.add_dir_ne c d hc1.symm)
          have hpres := characterBumpAttack_preserves w destE e rng e q hba
            hedest hxo
          dsimp only at h
          cases hor : (w.npcType.get e).orElse (fun _ => w.npcType.get destE) with
          | none => rw [hor] at h; cases h
          | some npcType =>
            rw [hor] at h
            injection h with h
            subst h
            refine ⟨hpres.1, ?_⟩
            obtain ⟨m, hm, hmk⟩ :=
              writeCombatLogMessages_shape (w.npcType.get e).isNone q.2.1 npcType msgs
            exact ⟨[m], by rw [← hm], by
              intro k hk
              exact hmk k (List.mem_singleton.mp hk).symm⟩
      · rw [if_neg hx] at h
        injection h with h
        subst h
        exact ⟨rfl, [], by simp, by simp⟩
    | none =>
      rw [hdc] at h
      dsimp only at h
      by_cases hft : (w.spatialTable.layersAt (c.add d.coord)).feature.isSome = true
      · rw [if_pos hft] at h
        injection h with h
        subst h
        exact ⟨rfl, [], by simp, by simp⟩
      · rw [if_neg hft] at h
        cases hu : w.spatialTable.updateCoord e (c.add d.coord) with
        | ok st =>
          rw [hu] at h
          injection h with h
          subst h
          exact ⟨rfl, [], by simp, by simp⟩
        | error err => rw [hu] at h; cases h
  · rw [if_neg hv] at h
    injection h with h
    subst h
    exact ⟨rfl, [], by simp, by simp⟩

end World

/-!
## Claim C2: confusion countdown behaviour
-/

/-- C2 (amended): whenever a mover holds a confusion-countdown component, the
requested direction is discarded (the call's outcome is independent of it)
and the rng-drawn cardinal direction — every one of the four is drawable — is
substituted.  A call observing countdown `cd > 0` decrements it to `cd − 1`
and RETAINS the component (even at 0), appending no confusion-ended message;
the component is cleared, with the "confusion ended" message emitted exactly
once and only for NPC movers, by the NEXT call, which observes countdown 0
and still substitutes a random direction. -/
theorem C2_confusion_countdown (w : World) (e : Entity) (c : Coord)
    (d d' : CardinalDirection) (msgs : List LogMessage) (rng : Rng) (cd : Nat)
    (hcd : w.confusionCountdown.get e = some cd) :
    (World.maybeMoveCharacter w e d msgs rng =
      World.maybeMoveCharacter w e d' msgs rng) ∧
    (∀ dd : CardinalDirection, ∃ n : Nat, natToCardinal n = dd) ∧
    (0 < cd → w.spatialTable.coordOf e = some c →
      World.maybeMoveCharacter w e d msgs rng =
        World.moveResolve
          { w with confusionCountdown := w.confusionCountdown.insert e (cd - 1) }
          e c (natToCardinal (Rng.peek rng)) msgs (Rng.rest rng)) ∧
    (0 < cd → w.spatialTable.Wf →
      w.spatialTable.locationOf e = some ⟨c, some Layer.character⟩ →
      ∀ r, World.maybeMoveCharacter w e d msgs rng = some r →
        r.1.confusionCountdown.get e = some (cd - 1) ∧
        ∃ extra, r.2.1 = msgs ++ extra ∧
          ∀ k, LogMessage.npcIsNoLongerConfused k ∉ extra) ∧
    (cd = 0 → w.spatialTable.coordOf e = some c →
      World.maybeMoveCharacter w e d msgs rng =
        World.moveResolve
          { w with confusionCountdown := w.confusionCountdown.removeKey e }
          e c (natToCardinal (Rng.peek rng))
          (msgs ++ (match w.npcType.get e with
            | some k => [LogMessage.npcIsNoLongerConfused k]
            | none => [])) (Rng.rest rng)) := by
  have h3 : 0 < cd → w.spatialTable.coordOf e = some c →
      World.maybeMoveCharacter w e d msgs rng =
        World.moveResolve
          { w with confusionCountdown := w.confusionCountdown.insert e (cd - 1) }
          e c (natToCardinal (Rng.peek rng)) msgs (Rng.rest rng) := by
    intro hpos hc0
    unfold World.maybeMoveCharacter
    rw [hc0, hcd]
    dsimp only
    rw [if_neg (by omega)]
    rfl
  refine ⟨?_, ?_, h3, ?_, ?_⟩
  · unfold World.maybeMoveCharacter
    cases hc0 : w.spatialTable.coordOf e with
    | none => rfl
    | some c0 => rw [hcd]
  · intro dd
    cases dd
    · exact ⟨0, rfl⟩
    · exact ⟨1, rfl⟩
    · exact ⟨2, rfl⟩
    · exact ⟨3, rfl⟩
  · intro hpos hwf hloc r hr
    have hc0 : w.spatialTable.coordOf e = some c := by
      unfold SpatialTable.coordOf
      rw [hloc]
      rfl
    rw [h3 hpos hc0] at hr
    have hpres := World.moveResolve_preserves
      { w with confusionCountdown := w.confusionCountdown.insert e (cd - 1) }
      e c (natToCardinal (Rng.peek rng)) msgs (Rng.rest rng) hwf hloc r hr
    refine ⟨?_, hpres.2⟩
    rw [hpres.1]
    exact ComponentTable.get_insert_self _ _ _
  · intro hz hc0
    subst hz
    unfold World.maybeMoveCharacter
    rw [hc0, hcd]
    dsimp only
    rw [if_pos rfl]
    cases hnpc : w.npcType.get e with
    | some k => rfl
    | none =>
      simp only [List.append_nil]
      rfl

/-- A confused orc (entity 1, countdown 1) alone near the middle of a 4×4
grid. -/
def c2World : World where
  nextEntity := 2
  tile := [(1, Tile.npc NpcType.orc)]
  npcType := [(1, NpcType.orc)]
  hitPoints := [(1, ⟨2, 2⟩)]
  item := []
  inventory := []
  trajectory := []
  projectileTy := []
  confusionCountdown := [(1, 1)]
  baseDamage := [(1, 1)]
  strength := [(1, 1)]
  dexterity := [(1, 1)]
  intelligence := []
  equipHeld := []
  equipWorn := []
  spatialTable := ⟨⟨4, 4⟩, [(1, ⟨⟨1, 1⟩, some Layer.character⟩)]⟩

/-- C2 counterexample: a `maybe_move_character` call on a mover with an
active countdown of 1 decrements it to 0 — the countdown has reached zero —
yet the component is NOT cleared (it remains with value 0) and NO
"confusion ended" message is emitted by that call, contradicting the claim
that reaching zero clears the component and emits exactly one message. -/
theorem C2_counterexample :
    (World.maybeMoveCharacter c2World 1 CardinalDirection.north [] [0]).map
      (fun r => (r.1.confusionCountdown.get 1, r.2.1)) =
      some (some 0, ([] : List LogMessage)) := by
  rfl

/-- C2 witness: the amended description at a concrete confused orc — the
requested direction is discarded, the drawn direction substituted and the
countdown decremented in place. -/
theorem C2_witness :
    World.maybeMoveCharacter c2World 1 CardinalDirection.north [] [0] =
      World.moveResolve
        { c2World with
          confusionCountdown := c2World.confusionCountdown.insert 1 0 }
        1 ⟨1, 1⟩ (natToCardinal 0) [] [] :=
  (C2_confusion_countdown c2World 1 ⟨1, 1⟩ CardinalDirection.north
      CardinalDirection.south [] [0] 1 (by decide)).2.2.1 (by decide) (by decide)

/-!
## Claim C8: moves into Feature-occupied cells
-/

/-- C8 (amended): for a mover WITHOUT a confusion-countdown component, a move
request whose target cell (one step in the requested direction) has an
occupied Feature layer leaves the mover's coordinate unchanged — whether the
target also holds a character (bump attack) or not (feature block).  For
confused movers the requested direction is discarded (see the C2 and C8
counterexamples), so the guarantee holds only relative to the substituted
random direction. -/
theorem C8_feature_blocks (w : World) (e : Entity) (c : Coord)
    (d : CardinalDirection) (msgs : List LogMessage) (rng : Rng)
    (hwf : w.spatialTable.Wf)
    (hnc : w.confusionCountdown.get e = none)
    (hloc : w.spatialTable.locationOf e = some ⟨c, some Layer.character⟩)
    (hfeat : (w.spatialTable.layersAt (c.add d.coord)).feature.isSome = true) :
    ∀ r, World.maybeMoveCharacter w e d msgs rng = some r →
      r.1.spatialTable.coordOf e = some c := by
  intro r hr
  have hc0 : w.spatialTable.coordOf e = some c := by
    unfold SpatialTable.coordOf
    rw [hloc]
    rfl
  unfold World.maybeMoveCharacter at hr
  rw [hc0, hnc] at hr
  dsimp only at hr
  unfold World.moveResolve at hr
  by_cases hv : (c.add d.coord).isValid w.spatialTable.gridSize = true
  · rw [if_pos hv] at hr
    dsimp only at hr
    cases hdc : (w.spatialTable.layersAt (c.add d.coord)).character with
    | some destE =>
      rw [hdc] at hr
      dsimp only at hr
      have hdest : w.spatialTable.entries.get destE =
          some ⟨c.add d.coord, some Layer.character⟩ :=
        SpatialTable.get_of_entityAt hwf.1 hdc
      have hedest : e ≠ destE :=
        SpatialTable.ne_of_get_ne hloc hdest (by
          intro hce
          injection hce with h1 h2
          exact Coord.add_dir_ne c d h1.symm)
      by_cases hx : (w.npcType.get e).isSome ≠ (w.npcType.get destE).isSome
      · rw [if_pos hx] at hr
        cases hba : World.characterBumpAttack w destE e rng with
        | none => rw [hba] at hr; cases hr
        | some q =>
          rw [hba] at hr
          have hxo : ∀ o, w.spatialTable.updateLayer destE Layer.object =
              Except.error (UpdateError.occupiedBy o) → e ≠ o := by
            intro o hu
            obtain ⟨loc, hlo, hAt, _⟩ := SpatialTable.updateLayer_occupied_elim hu
            have hlo2 : loc = ⟨c.add d.coord, some Layer.character⟩ := by
              have hg : w.spatialTable.entries.get destE = some loc := hlo
              rw [hdest] at hg
              injection hg with hg
              exact hg.symm
            subst hlo2
            have hgo := SpatialTable.get_of_entityAt hwf.1 hAt
            exact SpatialTable.ne_of_get_ne hloc hgo (by
              intro hce
              injection hce with hc1 hc2
              exact Coord.add_dir_ne c d hc1.symm)
          have hpres := World.characterBumpAttack_preserves w destE e rng e q hba
            hedest hxo
          dsimp only at hr
          cases hor : (w.npcType.get e).orElse (fun _ => w.npcType.get destE) with
          | none => rw [hor] at hr; cases hr
          | some npcType =>
            rw [hor] at hr
            injection hr with hr
            subst hr
            show (q.1.spatialTable.locationOf e).map (fun loc => loc.coord) = some c
            rw [hpres.2.1, hloc]
            rfl
      · rw [if_neg hx] at hr
        injection hr with hr
        subst hr
        exact hc0
    | none =>
      rw [hdc] at hr
      dsimp only at hr
      rw [if_pos hfeat] at hr
      injection hr with hr
      subst hr
      exact hc0
  · rw [if_neg hv] at hr
    injection hr with hr
    subst hr
    exact hc0

/-- A confused orc (entity 1, countdown 5) at (1,1) with a wall (entity 2) on
the Feature layer of the cell to its north and a free cell to its east. -/
def c8World : World where
  nextEntity := 3
  tile := [(1, Tile.npc NpcType.orc), (2, Tile.wall)]
  npcType := [(1, NpcType.orc)]
  hitPoints := [(1, ⟨2, 2⟩)]
  item := []
  inventory := []
  trajectory := []
  projectileTy := []
  confusionCountdown := [(1, 5)]
  baseDamage := [(1, 1)]
  strength := [(1, 1)]
  dexterity := [(1, 1)]
  intelligence := []
  equipHeld := []
  equipWorn := []
  spatialTable :=
    ⟨⟨4, 4⟩, [(1, ⟨⟨1, 1⟩, some Layer.character⟩), (2, ⟨⟨1, 0⟩, some Layer.feature⟩)]⟩

/-- C8 counterexample: the requested direction (north) points at a
Feature-occupied cell, yet the confused mover's coordinate CHANGES — the
substituted random direction (east, drawn from the rng) is followed
instead, contradicting the claim's "for all movers, including those with an
active confusion countdown". -/
theorem C8_counterexample :
    (c8World.spatialTable.layersAt
      (Coord.add ⟨1, 1⟩ CardinalDirection.north.coord)).feature.isSome = true ∧
    (World.maybeMoveCharacter c8World 1 CardinalDirection.north [] [1]).map
      (fun r => r.1.spatialTable.coordOf 1) = some (some ⟨2, 1⟩) := by
  constructor
  · rfl
  · rfl

/-- The same situation with an unconfused orc. -/
def c8ncWorld : World where
  nextEntity := 3
  tile := [(1, Tile.npc NpcType.orc), (2, Tile.wall)]
  npcType := [(1, NpcType.orc)]
  hitPoints := [(1, ⟨2, 2⟩)]
  item := []
  inventory := []
  trajectory := []
  projectileTy := []
  confusionCountdown := []
  baseDamage := [(1, 1)]
  strength := [(1, 1)]
  dexterity := [(1, 1)]
  intelligence := []
  equipHeld := []
  equipWorn := []
  spatialTable :=
    ⟨⟨4, 4⟩, [(1, ⟨⟨1, 1⟩, some Layer.character⟩), (2, ⟨⟨1, 0⟩, some Layer.feature⟩)]⟩

/-- C8 witness: an unconfused mover requesting a move into the wall stays
put. -/
theorem C8_witness :
    (World.maybeMoveCharacter c8ncWorld 1 CardinalDirection.north [] []).map
      (fun r => r.1.spatialTable.coordOf 1) = some (some ⟨1, 1⟩) := by
  have h := C8_feature_blocks c8ncWorld 1 ⟨1, 1⟩ CardinalDirection.north [] []
    (by decide) (by decide) (by decide) (by decide)
  cases hm : World.maybeMoveCharacter c8ncWorld 1 CardinalDirection.north [] [] with
  | none => exact absurd hm (by decide)
  | some r =>
    rw [Option.map_some']
    rw [h r hm]

/-!
## Claims C3 and C9: aiming an item
-/

theorem Inventory.remove_of_getSlot {inv : Inventory} {i : Nat} {e : Entity}
    (h : inv.slots.get? i = some (some e)) :
    inv.remove i = Except.ok (e, ⟨inv.slots.set i none⟩) := by
  unfold Inventory.remove
  rw [h]

/-- C3 (amended): aiming at the caster's own coordinate fails, returning the
world, the inventory and the message log entirely unchanged — but, unlike
the other recoverable failures, WITHOUT appending any log message.  For any
other target (with the slot holding a scroll and the caster's cell free of
projectiles) the item is consumed from the slot and a projectile entity is
spawned at the caster's coordinate, a launch message is appended, and the
payload scales with the caster's intelligence floored at 0: fireball damage
`max 0 intelligence`, confusion duration `max 0 intelligence × 3`. -/
theorem C3_use_item_aim (w : World) (character : Entity) (i : Nat)
    (target : Coord) (msgs : List LogMessage) (c : Coord)
    (hc : w.spatialTable.coordOf character = some c) :
    (target = c →
      World.maybeUseItemAim w character i target msgs =
        some (w, msgs, Except.error ())) ∧
    (∀ inv itemEntity inv1 intel,
      target ≠ c →
      w.inventory.get character = some inv →
      inv.remove i = Except.ok (itemEntity, inv1) →
      w.intelligence.get character = some intel →
      w.spatialTable.entityAt c Layer.projectile = none →
      ((w.item.get itemEntity = some ItemType.fireballScroll →
        ∃ w', World.maybeUseItemAim w character i target msgs =
            some (w', msgs ++ [LogMessage.playerLaunchesProjectile
              (ProjectileType.fireball intel.toNat)], Except.ok ()) ∧
          w'.inventory.get character = some inv1 ∧
          w'.spatialTable.locationOf w.nextEntity =
            some ⟨c, some Layer.projectile⟩ ∧
          w'.projectileTy.get w.nextEntity =
            some (ProjectileType.fireball intel.toNat) ∧
          w'.trajectory.get w.nextEntity =
            some (cardinalStepIterNew (target.sub c))) ∧
      (w.item.get itemEntity = some ItemType.confusionScroll →
        ∃ w', World.maybeUseItemAim w character i target msgs =
            some (w', msgs ++ [LogMessage.playerLaunchesProjectile
              (ProjectileType.confusion (intel.toNat * 3))], Except.ok ()) ∧
          w'.inventory.get character = some inv1 ∧
          w'.spatialTable.locationOf w.nextEntity =
            some ⟨c, some Layer.projectile⟩ ∧
          w'.projectileTy.get w.nextEntity =
            some (ProjectileType.confusion (intel.toNat * 3)) ∧
          w'.trajectory.get w.nextEntity =
            some (cardinalStepIterNew (target.sub c))))) ∧
    (∀ n : Int, (n.toNat : Int) = max 0 n) := by
  refine ⟨?_, ?_, ?_⟩
  · intro ht
    subst ht
    unfold World.maybeUseItemAim
    rw [hc]
    dsimp only
    rw [if_pos rfl]
  · intro inv itemEntity inv1 intel ht hinv hrem hintel hfree
    have hspawn : ∀ pt : ProjectileType,
        World.spawnProjectile
          { w with inventory := w.inventory.insert character inv1 }
          c target pt =
          some { w with
            nextEntity := w.nextEntity + 1
            inventory := w.inventory.insert character inv1
            spatialTable := ⟨w.spatialTable.gridSize,
              w.spatialTable.entries.insert w.nextEntity
                ⟨c, some Layer.projectile⟩⟩
            tile := w.tile.insert w.nextEntity (Tile.projectile pt)
            projectileTy := w.projectileTy.insert w.nextEntity pt
            trajectory := w.trajectory.insert w.nextEntity
              (cardinalStepIterNew (target.sub c)) } := by
      intro pt
      unfold World.spawnProjectile SpatialTable.update SpatialTable.occupiedByOther
      dsimp only
      rw [show ({ w with inventory := w.inventory.insert character inv1 } :
          World).spatialTable.entityAt c Layer.projectile = none from hfree]
    have hbase : ∀ pt : ProjectileType,
        (World.spawnProjectile
          { w with inventory := w.inventory.insert character inv1 }
          c target pt).map (fun w2 =>
            (w2, msgs ++ [LogMessage.playerLaunchesProjectile pt],
              (Except.ok () : Except Unit Unit))) =
        some ({ w with
            nextEntity := w.nextEntity + 1
            inventory := w.inventory.insert character inv1
            spatialTable := ⟨w.spatialTable.gridSize,
              w.spatialTable.entries.insert w.nextEntity
                ⟨c, some Layer.projectile⟩⟩
            tile := w.tile.insert w.nextEntity (Tile.projectile pt)
            projectileTy := w.projectileTy.insert w.nextEntity pt
            trajectory := w.trajectory.insert w.nextEntity
              (cardinalStepIterNew (target.sub c)) },
          msgs ++ [LogMessage.playerLaunchesProjectile pt],
          (Except.ok () : Except Unit Unit)) := by
      intro pt
      rw [hspawn pt]
      rfl
    constructor
    · intro hitem
      have hmain : World.maybeUseItemAim w character i target msgs =
          some ({ w with
              nextEntity := w.nextEntity + 1
              inventory := w.inventory.insert character inv1
              spatialTable := ⟨w.spatialTable.gridSize,
                w.spatialTable.entries.insert w.nextEntity
                  ⟨c, some Layer.projectile⟩⟩
              tile := w.tile.insert w.nextEntity
                (Tile.projectile (ProjectileType.fireball intel.toNat))
              projectileTy := w.projectileTy.insert w.nextEntity
                (ProjectileType.fireball intel.toNat)
              trajectory := w.trajectory.insert w.nextEntity
                (cardinalStepIterNew (target.sub c)) },
            msgs ++ [LogMessage.playerLaunchesProjectile
              (ProjectileType.fireball intel.toNat)], Except.ok ()) := by
        unfold World.maybeUseItemAim
        rw [hc]
        dsimp only
        rw [if_neg (fun hh => ht hh.symm), hinv]
        dsimp only
        rw [hrem]
        dsimp only
        rw [show ComponentTable.get ({ w with
            inventory := w.inventory.insert character inv1 } : World).item
            itemEntity = some ItemType.fireballScroll from hitem]
        dsimp only
        rw [show ComponentTable.get ({ w with
            inventory := w.inventory.insert character inv1 } : World).intelligence
            character = some intel from hintel]
        dsimp only
        exact hbase (ProjectileType.fireball intel.toNat)
      exact ⟨_, hmain, ComponentTable.get_insert_self _ _ _,
        ComponentTable.get_insert_self _ _ _,
        ComponentTable.get_insert_self _ _ _,
        ComponentTable.get_insert_self _ _ _⟩
    · intro hitem
      have hmain : World.maybeUseItemAim w character i target msgs =
          some ({ w with
              nextEntity := w.nextEntity + 1
              inventory := w.inventory.insert character inv1
              spatialTable := ⟨w.spatialTable.gridSize,
                w.spatialTable.entries.insert w.nextEntity
                  ⟨c, some Layer.projectile⟩⟩
              tile := w.tile.insert w.nextEntity
                (Tile.projectile (ProjectileType.confusion (intel.toNat * 3)))
              projectileTy := w.projectileTy.insert w.nextEntity
                (ProjectileType.confusion (intel.toNat * 3))
              trajectory := w.trajectory.insert w.nextEntity
                (cardinalStepIterNew (target.sub c)) },
            msgs ++ [LogMessage.playerLaunchesProjectile
              (ProjectileType.confusion (intel.toNat * 3))], Except.ok ()) := by
        unfold World.maybeUseItemAim
        rw [hc]
        dsimp only
        rw [if_neg (fun hh => ht hh.symm), hinv]
        dsimp only
        rw [hrem]
        dsimp only
        rw [show ComponentTable.get ({ w with
            inventory := w.inventory.insert character inv1 } : World).item
            itemEntity = some ItemType.confusionScroll from hitem]
        dsimp only
        rw [show ComponentTable.get ({ w with
            inventory := w.inventory.insert character inv1 } : World).intelligence
            character = some intel from hintel]
        dsimp only
        exact hbase (ProjectileType.confusion (intel.toNat * 3))
      exact ⟨_, hmain, ComponentTable.get_insert_self _ _ _,
        ComponentTable.get_insert_self _ _ _,
        ComponentTable.get_insert_self _ _ _,
        ComponentTable.get_insert_self _ _ _⟩
  · intro n
    rcases Int.le_total 0 n with hn | hn
    · rw [Int.toNat_of_nonneg hn, max_eq_right hn]
    · rw [show n.toNat = 0 from Int.toNat_of_nonpos hn, max_eq_left hn]
      exact Int.natCast_zero

/-- A player (entity 1) at (1,1) holding a fireball scroll (entity 2) in
inventory slot 0, with intelligence 1. -/
def c3World : World where
  nextEntity := 3
  tile := [(1, Tile.player)]
  npcType := []
  hitPoints := [(1, ⟨20, 20⟩)]
  item := [(2, ItemType.fireballScroll)]
  inventory := [(1, ⟨[some 2]⟩)]
  trajectory := []
  projectileTy := []
  confusionCountdown := []
  baseDamage := [(1, 1)]
  strength := [(1, 1)]
  dexterity := [(1, 1)]
  intelligence := [(1, 1)]
  equipHeld := []
  equipWorn := []
  spatialTable := ⟨⟨6, 6⟩, [(1, ⟨⟨1, 1⟩, some Layer.character⟩)]⟩

/-- C3 counterexample: aiming at the caster's own coordinate fails and
leaves the world and inventory unchanged — but NO log message is appended
(the message log stays empty), contradicting the claim that every expected
recoverable failure appends an associated log message. -/
theorem C3_counterexample :
    World.maybeUseItemAim c3World 1 0 ⟨1, 1⟩ [] =
      some (c3World, [], Except.error ()) := by
  rfl

/-- C3 witness: the amended description at `c3World` — the self-target
failure (message-less) and a successful fireball launch at (3,1). -/
theorem C3_witness :
    (World.maybeUseItemAim c3World 1 0 ⟨1, 1⟩ [] =
      some (c3World, [], Except.error ())) ∧
    (∃ w', World.maybeUseItemAim c3World 1 0 ⟨3, 1⟩ [] =
        some (w', [LogMessage.playerLaunchesProjectile
          (ProjectileType.fireball 1)], Except.ok ()) ∧
      w'.inventory.get 1 = some ⟨[none]⟩ ∧
      w'.spatialTable.locationOf 3 = some ⟨⟨1, 1⟩, some Layer.projectile⟩ ∧
      w'.projectileTy.get 3 = some (ProjectileType.fireball 1) ∧
      w'.trajectory.get 3 = some (cardinalStepIterNew (Coord.sub ⟨3, 1⟩ ⟨1, 1⟩))) :=
  ⟨(C3_use_item_aim c3World 1 0 ⟨1, 1⟩ [] ⟨1, 1⟩ (by decide)).1 rfl,
    ((C3_use_item_aim c3World 1 0 ⟨3, 1⟩ [] ⟨1, 1⟩ (by decide)).2.1
      ⟨[some 2]⟩ 2 ⟨[none]⟩ 1 (by decide) (by decide) rfl (by decide)
      (by decide)).1 (by decide)⟩

/-- C9 (amended): under the claim's preconditions — the slot holds an item
entity whose type is FireballScroll or ConfusionScroll, and the caster has a
coordinate, an inventory and an intelligence component — the empty-slot
unwrap and the "invalid item for aim" panic cannot fire; with the caster's
cell's Projectile slot additionally free (otherwise `spawn_projectile`'s
spatial-insert unwrap is a further panic the claim overlooks), the function
is total. -/
theorem C9_aim_no_panic (w : World) (character : Entity) (i : Nat)
    (target : Coord) (msgs : List LogMessage) (c : Coord) (inv : Inventory)
    (itemEntity : Entity) (it : ItemType) (intel : Int)
    (hc : w.spatialTable.coordOf character = some c)
    (hinv : w.inventory.get character = some inv)
    (hslot : inv.slots.get? i = some (some itemEntity))
    (hit : w.item.get itemEntity = some it)
    (hscroll : it = ItemType.fireballScroll ∨ it = ItemType.confusionScroll)
    (hintel : w.intelligence.get character = some intel)
    (hfree : w.spatialTable.entityAt c Layer.projectile = none) :
    (World.maybeUseItemAim w character i target msgs).isSome = true := by
  by_cases ht : target = c
  · rw [(C3_use_item_aim w character i target msgs c hc).1 ht]
    rfl
  · have hrem := Inventory.remove_of_getSlot hslot
    have hrest := (C3_use_item_aim w character i target msgs c hc).2.1
      inv itemEntity ⟨inv.slots.set i none⟩ intel ht hinv hrem hintel hfree
    rcases hscroll with hs | hs
    · obtain ⟨w', hmain, _⟩ := hrest.1 (hs ▸ hit)
      rw [hmain]
      rfl
    · obtain ⟨w', hmain, _⟩ := hrest.2 (hs ▸ hit)
      rw [hmain]
      rfl

/-- `c3World` with an extra projectile (entity 0) already occupying the
Projectile layer of the caster's own cell. -/
def c9World : World where
  nextEntity := 3
  tile := [(0, Tile.projectile (ProjectileType.fireball 1)), (1, Tile.player)]
  npcType := []
  hitPoints := [(1, ⟨20, 20⟩)]
  item := [(2, ItemType.fireballScroll)]
  inventory := [(1, ⟨[some 2]⟩)]
  trajectory := [(0, [CardinalDirection.east])]
  projectileTy := [(0, ProjectileType.fireball 1)]
  confusionCountdown := []
  baseDamage := [(1, 1)]
  strength := [(1, 1)]
  dexterity := [(1, 1)]
  intelligence := [(1, 1)]
  equipHeld := []
  equipWorn := []
  spatialTable := ⟨⟨6, 6⟩,
    [(0, ⟨⟨1, 1⟩, some Layer.projectile⟩), (1, ⟨⟨1, 1⟩, some Layer.character⟩)]⟩

/-- C9 counterexample: with every precondition named by the claim satisfied
(valid fireball scroll in the slot; the caster has coordinate, inventory and
intelligence), `maybe_use_item_aim` still panics — `spawn_projectile`'s
spatial-insert `.unwrap()` fires because another projectile already occupies
the caster's cell — so the function is not total under the claim's
preconditions alone. -/
theorem C9_counterexample :
    World.maybeUseItemAim c9World 1 0 ⟨3, 1⟩ [] = none := by
  rfl

/-- C9 witness: totality at `c3World` (projectile slot free), for both a
rejected self-target and a genuine launch. -/
theorem C9_witness :
    (World.maybeUseItemAim c3World 1 0 ⟨3, 1⟩ []).isSome = true :=
  C9_aim_no_panic c3World 1 0 ⟨3, 1⟩ [] ⟨1, 1⟩ ⟨[some 2]⟩ 2
    ItemType.fireballScroll 1 (by decide) (by decide) (by decide) (by decide)
    (Or.inl rfl) (by decide) (by decide)

/-!
## Claim C5: the visibility epoch invariant
-/

/-- The set of cells one update stamps: every in-bounds cell (omniscient) or
the swept cells, origin included (shadowcast). -/
def sweepVisits (s : Size) (u : Coord × SweepSpec) (c : Coord) : Prop :=
  match u.2 with
  | SweepSpec.omniscient => c.isValid s = true
  | SweepSpec.shadowcast visited => c ∈ u.1 :: visited

instance (s : Size) (u : Coord × SweepSpec) (c : Coord) :
    Decidable (sweepVisits s u c) := by
  unfold sweepVisits
  cases u.2 <;> infer_instance

namespace VisibilityGrid

/-- The three `cell_visibility` answers, characterised in terms of the stamp,
for any grid whose counter is positive (as every reachable grid's is). -/
theorem cellVisibility_classify (g : VisibilityGrid) (c : Coord)
    (hcount : 0 < g.count) :
    (cellVisibility g c = CellVisibility.currently ↔
      (c.isValid g.gridSize = true ∧ g.lastSeen c = g.count)) ∧
    (cellVisibility g c = CellVisibility.never ↔
      (c.isValid g.gridSize = false ∨ g.lastSeen c = 0)) ∧
    (cellVisibility g c = CellVisibility.previously ↔
      (c.isValid g.gridSize = true ∧ 0 < g.lastSeen c ∧ g.lastSeen c ≠ g.count)) := by
  unfold cellVisibility get
  by_cases hval : c.isValid g.gridSize = true
  · rw [if_pos hval]
    dsimp only
    by_cases hcur : g.lastSeen c = g.count
    · rw [if_pos hcur]
      refine ⟨by simp [hval, hcur], by simp [hval]; omega, by simp [hcur]⟩
    · rw [if_neg hcur]
      by_cases hz : g.lastSeen c = 0
      · rw [if_pos hz]
        refine ⟨by simp [hcur], by simp [hz], by simp [hz]⟩
      · rw [if_neg hz]
        refine ⟨by simp [hcur], by simp [hval, hz], by simp [hval, hcur]; omega⟩
  · rw [if_neg hval]
    refine ⟨by simp [hval], by simp [hval], by simp [hval]⟩

/-- What one `update` does: the counter increments, the swept cells (all of
them in bounds) are stamped with the new counter, and every other cell keeps
its old stamp. -/
theorem update_spec (g : VisibilityGrid) (o : Coord) (sp : SweepSpec)
    (g' : VisibilityGrid) (h : update g o sp = some g') :
    g'.gridSize = g.gridSize ∧ g'.count = g.count + 1 ∧
    (∀ c, sweepVisits g.gridSize (o, sp) c → g'.lastSeen c = g.count + 1) ∧
    (∀ c, ¬ sweepVisits g.gridSize (o, sp) c → g'.lastSeen c = g.lastSeen c) ∧
    (∀ c, sweepVisits g.gridSize (o, sp) c → c.isValid g.gridSize = true) := by
  cases sp with
  | omniscient =>
    unfold update at h
    injection h with h
    subst h
    refine ⟨rfl, rfl, ?_, ?_, ?_⟩
    · intro c hc
      exact if_pos hc
    · intro c hc
      exact if_neg (fun hv => hc hv)
    · intro c hc
      exact hc
  | shadowcast visited =>
    unfold update at h
    dsimp only at h
    by_cases hall : (o :: visited).all (fun c => c.isValid g.gridSize) = true
    · rw [if_pos hall] at h
      injection h with h
      subst h
      refine ⟨rfl, rfl, ?_, ?_, ?_⟩
      · intro c hc
        exact if_pos hc
      · intro c hc
        exact if_neg (fun hv => hc hv)
      · intro c hc
        exact List.all_eq_true.mp hall c hc
    · rw [if_neg hall] at h
      cases h

/-- Over a whole history of updates: the grid size is fixed, the counter
grows by one per update, and a cell's stamp is 0 exactly when it started at
0 and no update in the history visited it. -/
theorem applyUpdates_spec (us : List (Coord × SweepSpec)) :
    ∀ g g', applyUpdates g us = some g' →
      g'.gridSize = g.gridSize ∧ g'.count = g.count + us.length ∧
      ∀ c, (g'.lastSeen c = 0 ↔
        (g.lastSeen c = 0 ∧ ∀ u ∈ us, ¬ sweepVisits g.gridSize u c)) := by
  induction us with
  | nil =>
    intro g g' h
    injection h with h
    subst h
    simp
  | cons u us ih =>
    intro g g' h
    unfold applyUpdates at h
    cases hu : update g u.1 u.2 with
    | none => rw [hu] at h; cases h
    | some g1 =>
      rw [hu] at h
      obtain ⟨hsz1, hcnt1, hstamp1, hkeep1, hin1⟩ := update_spec g u.1 u.2 g1 hu
      obtain ⟨hsz, hcnt, hzero⟩ := ih g1 g' h
      refine ⟨hsz.trans hsz1, ?_, ?_⟩
      · rw [hcnt, hcnt1, List.length_cons]
        omega
      · intro c
        rw [hzero c, hsz1]
        constructor
        · rintro ⟨h1, h2⟩
          by_cases hv : sweepVisits g.gridSize u c
          · rw [hstamp1 c (by obtain ⟨a, b⟩ := u; exact hv)] at h1
            omega
          · rw [hkeep1 c (by obtain ⟨a, b⟩ := u; exact hv)] at h1
            exact ⟨h1, fun u' hu' => by
              rcases List.mem_cons.mp hu' with h' | h'
              · subst h'; exact hv
              · exact h2 u' h'⟩
        · rintro ⟨h1, h2⟩
          have hv : ¬ sweepVisits g.gridSize u c :=
            h2 u (List.mem_cons_self _ _)
          rw [hkeep1 c (by obtain ⟨a, b⟩ := u; exact hv)]
          exact ⟨h1, fun u' hu' => h2 u' (List.mem_cons_of_mem _ hu')⟩

end VisibilityGrid

/-- C5: `update` strictly increases the current-turn counter and stamps
exactly the swept cells with the new counter; `cell_visibility` answers
Currently iff the stamp equals the counter (in bounds), Never iff the stamp
is 0 or the coordinate is out of bounds, Previously otherwise; immediately
after `update(origin, ...)` the origin is Currently (the shadowcast sweep
always visits its origin, and for omniscient mode every in-bounds origin is
stamped); starting from a fresh grid, a cell is Never exactly when no past
update visited it; and a cell Currently in update N but unswept in update
N+1 becomes Previously. -/
theorem C5_visibility_epoch (g : VisibilityGrid) (o : Coord) (sp : SweepSpec)
    (g' : VisibilityGrid) (s : Size) (us : List (Coord × SweepSpec))
    (gU : VisibilityGrid) (c : Coord)
    (hcount : 0 < g.count)
    (hupd : VisibilityGrid.update g o sp = some g') :
    g.count < g'.count ∧
    (sweepVisits g.gridSize (o, sp) c → g'.lastSeen c = g'.count) ∧
    (¬ sweepVisits g.gridSize (o, sp) c → g'.lastSeen c = g.lastSeen c) ∧
    (VisibilityGrid.cellVisibility g c = CellVisibility.currently ↔
      (c.isValid g.gridSize = true ∧ g.lastSeen c = g.count)) ∧
    (VisibilityGrid.cellVisibility g c = CellVisibility.never ↔
      (c.isValid g.gridSize = false ∨ g.lastSeen c = 0)) ∧
    (VisibilityGrid.cellVisibility g c = CellVisibility.previously ↔
      (c.isValid g.gridSize = true ∧ 0 < g.lastSeen c ∧
        g.lastSeen c ≠ g.count)) ∧
    (o.isValid g.gridSize = true →
      VisibilityGrid.cellVisibility g' o = CellVisibility.currently) ∧
    (∀ visited, sp = SweepSpec.shadowcast visited →
      VisibilityGrid.cellVisibility g' o = CellVisibility.currently) ∧
    (VisibilityGrid.applyUpdates (VisibilityGrid.new s) us = some gU →
      (VisibilityGrid.cellVisibility gU c = CellVisibility.never ↔
        (c.isValid s = false ∨ ∀ u ∈ us, ¬ sweepVisits s u c))) ∧
    (VisibilityGrid.cellVisibility g c = CellVisibility.currently →
      ¬ sweepVisits g.gridSize (o, sp) c →
      VisibilityGrid.cellVisibility g' c = CellVisibility.previously) := by
  obtain ⟨hsz, hcnt, hstamp, hkeep, hin⟩ :=
    VisibilityGrid.update_spec g o sp g' hupd
  have hcnt' : 0 < g'.count := by omega
  obtain ⟨hcurG, hnevG, hprevG⟩ :=
    VisibilityGrid.cellVisibility_classify g c hcount
  refine ⟨by omega, ?_, hkeep c, hcurG, hnevG, hprevG, ?_, ?_, ?_, ?_⟩
  · intro hv
    rw [hstamp c hv, hcnt]
  · intro hov
    have hov' : sweepVisits g.gridSize (o, sp) o := by
      cases sp with
      | omniscient => exact hov
      | shadowcast visited => exact List.mem_cons_self _ _
    obtain ⟨hc1, _, _⟩ := VisibilityGrid.cellVisibility_classify g' o hcnt'
    exact hc1.mpr ⟨by rw [hsz]; exact hov, by rw [hstamp o hov', hcnt]⟩
  · intro visited hsp
    subst hsp
    have hov' : sweepVisits g.gridSize (o, SweepSpec.shadowcast visited) o :=
      List.mem_cons_self _ _
    obtain ⟨hc1, _, _⟩ := VisibilityGrid.cellVisibility_classify g' o hcnt'
    exact hc1.mpr ⟨by rw [hsz]; exact hin o hov', by rw [hstamp o hov', hcnt]⟩
  · intro hU
    obtain ⟨hszU, hcntU, hzeroU⟩ := VisibilityGrid.applyUpdates_spec us _ _ hU
    have hnew1 : (VisibilityGrid.new s).count = 1 := rfl
    have hcntU' : 0 < gU.count := by omega
    obtain ⟨_, hn2, _⟩ := VisibilityGrid.cellVisibility_classify gU c hcntU'
    rw [hn2, hszU, hzeroU c]
    have hnewz : (VisibilityGrid.new s).lastSeen c = 0 := rfl
    have hnewsz : (VisibilityGrid.new s).gridSize = s := rfl
    rw [hnewsz]
    simp [hnewz]
  · intro hcur hnv
    obtain ⟨_, _, hp'⟩ := VisibilityGrid.cellVisibility_classify g' c hcnt'
    obtain ⟨hval, hls⟩ := hcurG.mp hcur
    refine hp'.mpr ⟨by rw [hsz]; exact hval, ?_, ?_⟩
    · rw [hkeep c hnv, hls]
      exact hcount
    · rw [hkeep c hnv, hls, hcnt]
      omega

/-- The grid obtained from a fresh 2×2 grid by one shadowcast update from
(0,0) that also sweeps (1,0). -/
def c5Grid : VisibilityGrid :=
  ⟨⟨2, 2⟩, fun c => if c ∈ ([⟨0, 0⟩, ⟨1, 0⟩] : List Coord) then 2 else 0, 2⟩

/-- C5 witness: on a concrete 2×2 grid, after one sweep from (0,0) the
origin is Currently, the fresh grid answers Never everywhere, and the
unswept cell (1,1) is still Never. -/
theorem C5_witness :
    VisibilityGrid.cellVisibility c5Grid ⟨0, 0⟩ = CellVisibility.currently ∧
    VisibilityGrid.cellVisibility (VisibilityGrid.new ⟨2, 2⟩) ⟨0, 0⟩ =
      CellVisibility.never ∧
    VisibilityGrid.cellVisibility c5Grid ⟨1, 1⟩ = CellVisibility.never := by
  have h1 := C5_visibility_epoch (VisibilityGrid.new ⟨2, 2⟩) ⟨0, 0⟩
    (SweepSpec.shadowcast [⟨1, 0⟩]) c5Grid ⟨2, 2⟩ [] (VisibilityGrid.new ⟨2, 2⟩)
    ⟨0, 0⟩ (by decide) rfl
  have h2 := C5_visibility_epoch (VisibilityGrid.new ⟨2, 2⟩) ⟨0, 0⟩
    (SweepSpec.shadowcast [⟨1, 0⟩]) c5Grid ⟨2, 2⟩
    [(⟨0, 0⟩, SweepSpec.shadowcast [⟨1, 0⟩])] c5Grid ⟨1, 1⟩ (by decide) rfl
  refine ⟨?_, ?_, ?_⟩
  · exact h1.2.2.2.2.2.2.1 (by decide)
  · exact (h1.2.2.2.2.2.2.2.2.1 rfl).mpr
      (Or.inr (fun u hu => absurd hu (List.not_mem_nil u)))
  · exact (h2.2.2.2.2.2.2.2.2.1 rfl).mpr (Or.inr (by decide))

/-!
## Claim C6: projectile ticking

Helper lemmas: key stability of inserts on existing keys, stability of the
character/feature occupancy view under projectile moves, and nodup
preservation.
-/

namespace ComponentTable

theorem keys_insert_of_isSome {α : Type} (t : ComponentTable α) (e : Entity)
    (a : α) (h : (get t e).isSome = true) :
    (insert t e a).map Prod.fst = t.map Prod.fst := by
  induction t with
  | nil => simp [get] at h
  | cons p rest ih =>
    by_cases hp : p.1 = e
    · simp only [insert]
      rw [if_pos hp]
      simp [hp]
    · simp only [insert]
      rw [if_neg hp]
      simp only [get, if_neg hp] at h
      simp [ih h]

theorem nodup_keys_removeKey {α : Type} (t : ComponentTable α) (e : Entity)
    (h : (t.map Prod.fst).Nodup) :
    ((removeKey t e).map Prod.fst).Nodup :=
  ((List.filter_sublist t).map Prod.fst).nodup h

end ComponentTable

namespace SpatialTable

/-- Re-placing an entity whose old and new locations both miss the queried
(cell, layer) slot does not change the occupancy view of that slot. -/
theorem entityAt_insert_stable {st : SpatialTable} {e : Entity}
    {loc : Location} {c : Coord} {l : Layer}
    (hold : ∀ lo, st.entries.get e = some lo → lo ≠ (⟨c, some l⟩ : Location))
    (hnew : loc ≠ (⟨c, some l⟩ : Location)) :
    entityAt ⟨st.gridSize, st.entries.insert e loc⟩ c l = entityAt st c l := by
  show (((st.entries.insert e loc).find?
      (fun p => decide (p.2 = ⟨c, some l⟩))).map (fun p => p.1)) = _
  unfold entityAt
  obtain ⟨gs, entries⟩ := st
  dsimp only at hold ⊢
  clear gs
  induction entries with
  | nil =>
    simp [ComponentTable.insert, List.find?, hnew]
  | cons p rest ih =>
    by_cases hp : p.1 = e
    · simp only [ComponentTable.insert]
      rw [if_pos hp]
      have hph : p.2 ≠ (⟨c, some l⟩ : Location) := by
        apply hold
        simp [ComponentTable.get, hp]
      simp only [List.find?]
      rw [show (decide ((e, loc).2 = (⟨c, some l⟩ : Location))) = false by
          simpa using hnew,
        show (decide (p.2 = (⟨c, some l⟩ : Location))) = false by simpa using hph]
    · simp only [ComponentTable.insert]
      rw [if_neg hp]
      simp only [List.find?]
      cases hm : decide (p.2 = (⟨c, some l⟩ : Location)) with
      | true => rfl
      | false =>
        apply ih
        intro lo hlo
        apply hold
        simp only [ComponentTable.get, if_neg hp]
        exact hlo

end SpatialTable

/-- The removals and queued effects of one projectile tick computed wholly
against the frozen pre-tick world — the reference the pass is compared with
to show that effects are queued from the state before any effect applies. -/
def collectProjectileOutcomes (w : World) :
    List (Entity × List CardinalDirection) → ProjectileAcc →
      Option ProjectileAcc
  | [], acc => some acc
  | (entity, traj) :: rest, acc =>
    match traj with
    | [] =>
      collectProjectileOutcomes w rest
        { acc with entitiesToRemove := acc.entitiesToRemove ++ [entity] }
    | direction :: _ =>
      match w.spatialTable.coordOf entity with
      | none => none
      | some currentCoord =>
        let newCoord := currentCoord.add direction.coord
        if newCoord.isValid w.spatialTable.gridSize then
          let destLayers := w.spatialTable.layersAt newCoord
          let acc1 :=
            if destLayers.feature.isSome then
              { acc with entitiesToRemove := acc.entitiesToRemove ++ [entity] }
            else
              match destLayers.character with
              | some character =>
                let acc2 :=
                  { acc with entitiesToRemove := acc.entitiesToRemove ++ [entity] }
                match w.projectileTy.get entity with
                | some (ProjectileType.fireball damage) =>
                  { acc2 with fireballHit := acc2.fireballHit ++ [(character, damage)] }
                | some (ProjectileType.confusion duration) =>
                  { acc2 with confusionHit := acc2.confusionHit ++ [(character, duration)] }
                | none => acc2
              | none => acc
          collectProjectileOutcomes w rest acc1
        else none

theorem collectProjectileOutcomes_removes_mono (w : World)
    (l : List (Entity × List CardinalDirection)) :
    ∀ acc acc', collectProjectileOutcomes w l acc = some acc' →
      ∃ suffix, acc'.entitiesToRemove = acc.entitiesToRemove ++ suffix ∧
        ∀ x ∈ suffix, x ∈ l.map Prod.fst := by
  induction l with
  | nil =>
    intro acc acc' h
    injection h with h
    subst h
    exact ⟨[], by simp, by simp⟩
  | cons p rest ih =>
    intro acc acc' h
    obtain ⟨e, traj⟩ := p
    unfold collectProjectileOutcomes at h
    cases traj with
    | nil =>
      obtain ⟨suffix, hs, hmem⟩ := ih _ _ h
      refine ⟨e :: suffix, ?_, ?_⟩
      · rw [hs]
        simp
      · intro x hx
        rcases List.mem_cons.mp hx with hx | hx
        · simp [hx]
        · simp only [List.map_cons, List.mem_cons]
          exact Or.inr (hmem x hx)
    | cons d rest' =>
      cases hco : w.spatialTable.coordOf e with
      | none => rw [hco] at h; cases h
      | some cur =>
        rw [hco] at h
        dsimp only at h
        by_cases hval :
            (cur.add d.coord).isValid w.spatialTable.gridSize = true
        · rw [if_pos hval] at h
          have step : ∀ acc1, collectProjectileOutcomes w rest acc1 = some acc' →
              (acc1.entitiesToRemove = acc.entitiesToRemove ∨
                acc1.entitiesToRemove = acc.entitiesToRemove ++ [e]) →
              ∃ suffix, acc'.entitiesToRemove = acc.entitiesToRemove ++ suffix ∧
                ∀ x ∈ suffix, x ∈ ((e, d :: rest') :: rest).map Prod.fst := by
            intro acc1 h1 hsh
            obtain ⟨suffix, hs, hmem⟩ := ih _ _ h1
            rcases hsh with hsh | hsh
            · refine ⟨suffix, by rw [hs, hsh], ?_⟩
              intro x hx
              simp only [List.map_cons, List.mem_cons]
              exact Or.inr (hmem x hx)
            · refine ⟨e :: suffix, by rw [hs, hsh]; simp, ?_⟩
              intro x hx
              rcases List.mem_cons.mp hx with hx | hx
              · simp [hx]
              · simp only [List.map_cons, List.mem_cons]
                exact Or.inr (hmem x hx)
          by_cases hft :
              (w.spatialTable.layersAt (cur.add d.coord)).feature.isSome = true
          · rw [if_pos hft] at h
            exact step _ h (Or.inr rfl)
          · rw [if_neg hft] at h
            cases hch : (w.spatialTable.layersAt (cur.add d.coord)).character with
            | none =>
              rw [hch] at h
              exact step _ h (Or.inl rfl)
            | some ch =>
              rw [hch] at h
              dsimp only at h
              cases hty : w.projectileTy.get e with
              | none =>
                rw [hty] at h
                exact step _ h (Or.inr rfl)
              | some pt =>
                rw [hty] at h
                cases pt with
                | fireball dmg => exact step _ h (Or.inr rfl)
                | confusion dur => exact step _ h (Or.inr rfl)
        · rw [if_neg hval] at h
          cases h

namespace World

/-- Locations with different layers differ. -/
theorem Location.ne_of_layer_ne {la lb : Option Layer} (h : la ≠ lb)
    (c1 c2 : Coord) : (⟨c1, la⟩ : Location) ≠ ⟨c2, lb⟩ := by
  intro hc
  injection hc with h1 h2
  exact h h2

/-- The unfolding of `projectileStep` on a projectile with a pending step,
once its current coordinate is known. -/
theorem projectileStep_cons_eq (wm : World) (accm : ProjectileAcc) (e : Entity)
    (d : CardinalDirection) (rest : List CardinalDirection) (cp : Coord)
    (hco : wm.spatialTable.coordOf e = some cp) :
    projectileStep (wm, accm) (e, d :: rest) =
      (if (cp.add d.coord).isValid wm.spatialTable.gridSize = true then
        some
          ({ wm with
              trajectory := wm.trajectory.insert e rest
              spatialTable :=
                match wm.spatialTable.updateCoord e (cp.add d.coord) with
                | Except.ok st => st
                | Except.error _ => wm.spatialTable },
            if (wm.spatialTable.layersAt (cp.add d.coord)).feature.isSome = true then
              { accm with entitiesToRemove := accm.entitiesToRemove ++ [e] }
            else
              match (wm.spatialTable.layersAt (cp.add d.coord)).character with
              | some character =>
                match wm.projectileTy.get e with
                | some (ProjectileType.fireball damage) =>
                  { entitiesToRemove := accm.entitiesToRemove ++ [e]
                    fireballHit := accm.fireballHit ++ [(character, damage)]
                    confusionHit := accm.confusionHit }
                | some (ProjectileType.confusion duration) =>
                  { entitiesToRemove := accm.entitiesToRemove ++ [e]
                    fireballHit := accm.fireballHit
                    confusionHit := accm.confusionHit ++ [(character, duration)] }
                | none =>
                  { entitiesToRemove := accm.entitiesToRemove ++ [e]
                    fireballHit := accm.fireballHit
                    confusionHit := accm.confusionHit }
              | none => accm)
      else none) := by
  conv_lhs => whnf
  rw [hco]

/-- The unfolding of `collectProjectileOutcomes` on a projectile with a
pending step, once its current coordinate is known. -/
theorem collectProjectileOutcomes_cons_eq (w : World) (accm : ProjectileAcc)
    (e : Entity) (d : CardinalDirection) (rest : List CardinalDirection)
    (l' : List (Entity × List CardinalDirection)) (cp : Coord)
    (hco : w.spatialTable.coordOf e = some cp) :
    collectProjectileOutcomes w ((e, d :: rest) :: l') accm =
      (if (cp.add d.coord).isValid w.spatialTable.gridSize = true then
        collectProjectileOutcomes w l'
          (if (w.spatialTable.layersAt (cp.add d.coord)).feature.isSome = true then
            { accm with entitiesToRemove := accm.entitiesToRemove ++ [e] }
          else
            match (w.spatialTable.layersAt (cp.add d.coord)).character with
            | some character =>
              match w.projectileTy.get e with
              | some (ProjectileType.fireball damage) =>
                { entitiesToRemove := accm.entitiesToRemove ++ [e]
                  fireballHit := accm.fireballHit ++ [(character, damage)]
                  confusionHit := accm.confusionHit }
              | some (ProjectileType.confusion duration) =>
                { entitiesToRemove := accm.entitiesToRemove ++ [e]
                  fireballHit := accm.fireballHit
                  confusionHit := accm.confusionHit ++ [(character, duration)] }
              | none =>
                { entitiesToRemove := accm.entitiesToRemove ++ [e]
                  fireballHit := accm.fireballHit
                  confusionHit := accm.confusionHit }
            | none => accm)
      else none) := by
  conv_lhs => whnf
  rw [hco]

/-- The main induction behind C6: folding `projectileStep` over a list of
projectiles whose (character/feature) surroundings agree with the frozen
pre-tick world `w0` produces exactly the removals and queued hits that
`collectProjectileOutcomes` reads off `w0`, advances every clean projectile
by one step (or leaves it in place on a projectile-projectile collision),
and touches no other entity. -/
theorem projectilePass_go (l : List (Entity × List CardinalDirection)) :
    ∀ (w0 wm : World) (accm : ProjectileAcc) (res : World × ProjectileAcc),
    l.foldlM projectileStep (wm, accm) = some res →
    wm.spatialTable.gridSize = w0.spatialTable.gridSize →
    (∀ c, wm.spatialTable.entityAt c Layer.character =
      w0.spatialTable.entityAt c Layer.character) →
    (∀ c, wm.spatialTable.entityAt c Layer.feature =
      w0.spatialTable.entityAt c Layer.feature) →
    wm.projectileTy = w0.projectileTy →
    (wm.spatialTable.entries.map Prod.fst).Nodup →
    (∀ p ∈ l, ∃ cp,
      wm.spatialTable.locationOf p.1 = some ⟨cp, some Layer.projectile⟩ ∧
      w0.spatialTable.locationOf p.1 = some ⟨cp, some Layer.projectile⟩) →
    (l.map Prod.fst).Nodup →
    (∀ p ∈ l, p.1 ∉ accm.entitiesToRemove) →
    ((res.1.spatialTable.entries.map Prod.fst).Nodup ∧
      res.1.tile = wm.tile ∧
      (∀ x, x ∉ l.map Prod.fst →
        res.1.spatialTable.locationOf x = wm.spatialTable.locationOf x ∧
        res.1.trajectory.get x = wm.trajectory.get x) ∧
      collectProjectileOutcomes w0 l accm = some res.2 ∧
      (∀ p ∈ l,
        (p.2 = [] → p.1 ∈ res.2.entitiesToRemove) ∧
        (∀ d rest cp, p.2 = d :: rest →
          w0.spatialTable.locationOf p.1 =
            some ⟨cp, some Layer.projectile⟩ →
          (((w0.spatialTable.layersAt (cp.add d.coord)).feature.isSome = true ∨
            (w0.spatialTable.layersAt (cp.add d.coord)).character.isSome = true) →
            p.1 ∈ res.2.entitiesToRemove) ∧
          ((w0.spatialTable.layersAt (cp.add d.coord)).feature.isSome = false →
            (w0.spatialTable.layersAt (cp.add d.coord)).character = none →
            p.1 ∉ res.2.entitiesToRemove ∧
            res.1.trajectory.get p.1 = some rest ∧
            (res.1.spatialTable.locationOf p.1 =
                some ⟨cp.add d.coord, some Layer.projectile⟩ ∨
              res.1.spatialTable.locationOf p.1 =
                some ⟨cp, some Layer.projectile⟩))))) := by
  induction l with
  | nil =>
    intro w0 wm accm res h hsz hchar hfeat hty hnd hl hlnd hacc
    injection h with h
    subst h
    refine ⟨hnd, rfl, fun x _ => ⟨rfl, rfl⟩, rfl, ?_⟩
    intro p hp
    cases hp
  | cons p l' ih =>
    intro w0 wm accm res h hsz hchar hfeat hty hnd hl hlnd hacc
    obtain ⟨e, traj⟩ := p
    rw [List.foldlM_cons] at h
    cases hstep : projectileStep (wm, accm) (e, traj) with
    | none => rw [hstep] at h; cases h
    | some s1 =>
      rw [hstep] at h
      dsimp only [bind, Option.bind] at h
      obtain ⟨cp, hmloc, h0loc⟩ := hl (e, traj) (List.mem_cons_self _ _)
      have hlnd' : (l'.map Prod.fst).Nodup := (List.nodup_cons.mp hlnd).2
      have henotl' : e ∉ l'.map Prod.fst := by
        simpa using (List.nodup_cons.mp hlnd).1
      cases traj with
      | nil =>
        unfold projectileStep at hstep
        dsimp only at hstep
        injection hstep with hstep
        subst hstep
        have htail := ih w0 wm
          { accm with entitiesToRemove := accm.entitiesToRemove ++ [e] }
          res h hsz hchar hfeat hty hnd
          (fun q hq => hl q (List.mem_cons_of_mem _ hq)) hlnd'
          (fun q hq => by
            intro hmem
            rcases List.mem_append.mp hmem with hmem | hmem
            · exact hacc q (List.mem_cons_of_mem _ hq) hmem
            · rcases List.mem_singleton.mp hmem with hx
              apply henotl'
              rw [← hx]
              exact List.mem_map_of_mem Prod.fst hq)
        obtain ⟨tnd, ttile, tunt, tcoll, tproj⟩ := htail
        obtain ⟨suffix, hsfx, hsfxmem⟩ :=
          collectProjectileOutcomes_removes_mono w0 l' _ _ tcoll
        refine ⟨tnd, ttile, ?_, ?_, ?_⟩
        · intro x hx
          refine tunt x ?_
          intro hmem
          exact hx (by
            simp only [List.map_cons]
            exact List.mem_cons_of_mem _ hmem)
        · exact tcoll
        · intro q hq
          rcases List.mem_cons.mp hq with hq | hq
          · subst hq
            refine ⟨?_, ?_⟩
            · intro _
              rw [hsfx]
              simp
            · intro d rest cp' hq2
              cases hq2
          · exact tproj q hq
      | cons d rest =>
        have hco : wm.spatialTable.coordOf e = some cp := by
          unfold SpatialTable.coordOf
          rw [hmloc]
          rfl
        rw [projectileStep_cons_eq wm accm e d rest cp hco] at hstep
        by_cases hval :
            (cp.add d.coord).isValid wm.spatialTable.gridSize = true
        case neg => rw [if_neg hval] at hstep; cases hstep
        rw [if_pos hval] at hstep
        have hval0 : (cp.add d.coord).isValid w0.spatialTable.gridSize = true := by
          rw [← hsz]
          exact hval
        have hco0 : w0.spatialTable.coordOf e = some cp := by
          unfold SpatialTable.coordOf
          rw [h0loc]
          rfl
        have hF : (wm.spatialTable.layersAt (cp.add d.coord)).feature =
            (w0.spatialTable.layersAt (cp.add d.coord)).feature :=
          hfeat (cp.add d.coord)
        have hC : (wm.spatialTable.layersAt (cp.add d.coord)).character =
            (w0.spatialTable.layersAt (cp.add d.coord)).character :=
          hchar (cp.add d.coord)
        have mainAcc : ∀ acc1 : ProjectileAcc,
            l'.foldlM projectileStep
              ({ wm with
                  trajectory := wm.trajectory.insert e rest
                  spatialTable :=
                    match wm.spatialTable.updateCoord e (cp.add d.coord) with
                    | Except.ok st => st
                    | Except.error _ => wm.spatialTable }, acc1) = some res →
            (∀ q ∈ l', q.1 ∉ acc1.entitiesToRemove) →
            ((res.1.spatialTable.entries.map Prod.fst).Nodup ∧
              res.1.tile = wm.tile ∧
              (∀ x, x ≠ e → x ∉ l'.map Prod.fst →
                res.1.spatialTable.locationOf x =
                  wm.spatialTable.locationOf x ∧
                res.1.trajectory.get x = wm.trajectory.get x) ∧
              collectProjectileOutcomes w0 l' acc1 = some res.2 ∧
              (∀ q ∈ l',
                (q.2 = [] → q.1 ∈ res.2.entitiesToRemove) ∧
                (∀ d' rest' cq, q.2 = d' :: rest' →
                  w0.spatialTable.locationOf q.1 =
                    some ⟨cq, some Layer.projectile⟩ →
                  (((w0.spatialTable.layersAt (cq.add d'.coord)).feature.isSome = true ∨
                    (w0.spatialTable.layersAt (cq.add d'.coord)).character.isSome = true) →
                    q.1 ∈ res.2.entitiesToRemove) ∧
                  ((w0.spatialTable.layersAt (cq.add d'.coord)).feature.isSome = false →
                    (w0.spatialTable.layersAt (cq.add d'.coord)).character = none →
                    q.1 ∉ res.2.entitiesToRemove ∧
                    res.1.trajectory.get q.1 = some rest' ∧
                    (res.1.spatialTable.locationOf q.1 =
                        some ⟨cq.add d'.coord, some Layer.projectile⟩ ∨
                      res.1.spatialTable.locationOf q.1 =
                        some ⟨cq, some Layer.projectile⟩)))) ∧
              (res.1.trajectory.get e = some rest ∧
                (res.1.spatialTable.locationOf e =
                    some ⟨cp.add d.coord, some Layer.projectile⟩ ∨
                  res.1.spatialTable.locationOf e =
                    some ⟨cp, some Layer.projectile⟩))) := by
          intro acc1 hh hacc1
          cases hupd : wm.spatialTable.updateCoord e (cp.add d.coord) with
          | ok st =>
            rw [hupd] at hh
            obtain ⟨loc, hloce, hstdef⟩ := SpatialTable.updateCoord_ok_elim hupd
            have hloc2 : loc = ⟨cp, some Layer.projectile⟩ :=
              Option.some.inj (hloce.symm.trans hmloc)
            subst hloc2
            subst hstdef
            have hIchar : ∀ c,
                SpatialTable.entityAt
                  ⟨wm.spatialTable.gridSize,
                    wm.spatialTable.entries.insert e
                      ⟨cp.add d.coord,
                        (Location.mk cp (some Layer.projectile)).layer⟩⟩
                  c Layer.character =
                w0.spatialTable.entityAt c Layer.character := by
              intro c
              rw [SpatialTable.entityAt_insert_stable ?hold ?hnew]
              · exact hchar c
              case hold =>
                intro lo hlo
                rw [show wm.spatialTable.entries.get e =
                    some ⟨cp, some Layer.projectile⟩ from hmloc] at hlo
                injection hlo with hlo
                subst hlo
                exact Location.ne_of_layer_ne (by simp) _ _
              case hnew =>
                exact Location.ne_of_layer_ne (by simp) _ _
            have hIfeat : ∀ c,
                SpatialTable.entityAt
                  ⟨wm.spatialTable.gridSize,
                    wm.spatialTable.entries.insert e
                      ⟨cp.add d.coord,
                        (Location.mk cp (some Layer.projectile)).layer⟩⟩
                  c Layer.feature =
                w0.spatialTable.entityAt c Layer.feature := by
              intro c
              rw [SpatialTable.entityAt_insert_stable ?hold ?hnew]
              · exact hfeat c
              case hold =>
                intro lo hlo
                rw [show wm.spatialTable.entries.get e =
                    some ⟨cp, some Layer.projectile⟩ from hmloc] at hlo
                injection hlo with hlo
                subst hlo
                exact Location.ne_of_layer_ne (by simp) _ _
              case hnew =>
                exact Location.ne_of_layer_ne (by simp) _ _
            have hInd : ((wm.spatialTable.entries.insert e
                ⟨cp.add d.coord,
                  (Location.mk cp (some Layer.projectile)).layer⟩).map
                  Prod.fst).Nodup := by
              rw [ComponentTable.keys_insert_of_isSome _ _ _
                (by rw [show wm.spatialTable.entries.get e =
                    some ⟨cp, some Layer.projectile⟩ from hmloc]; rfl)]
              exact hnd
            have hgete : ∀ x, x ≠ e →
                ComponentTable.get (wm.spatialTable.entries.insert e
                  ⟨cp.add d.coord,
                    (Location.mk cp (some Layer.projectile)).layer⟩) x =
                wm.spatialTable.entries.get x := by
              intro x hx
              exact ComponentTable.get_insert_other _ e x _ (fun hc => hx hc.symm)
            have htail := ih w0
              { wm with
                trajectory := wm.trajectory.insert e rest
                spatialTable :=
                  ⟨wm.spatialTable.gridSize,
                    wm.spatialTable.entries.insert e
                      ⟨cp.add d.coord,
                        (Location.mk cp (some Layer.projectile)).layer⟩⟩ }
              acc1 res hh hsz hIchar hIfeat hty hInd
              (fun q hq => by
                obtain ⟨cq, hq1, hq2⟩ := hl q (List.mem_cons_of_mem _ hq)
                refine ⟨cq, ?_, hq2⟩
                show ComponentTable.get _ q.1 = _
                rw [hgete q.1 (by
                  intro hqe
                  apply henotl'
                  rw [← hqe]
                  exact List.mem_map_of_mem Prod.fst hq)]
                exact hq1)
              hlnd' hacc1
            obtain ⟨tnd, ttile, tunt, tcoll, tproj⟩ := htail
            refine ⟨tnd, ttile, ?_, tcoll, tproj, ?_⟩
            · intro x hxe hxl
              obtain ⟨tu1, tu2⟩ := tunt x hxl
              constructor
              · rw [tu1]
                show ComponentTable.get _ x = _
                exact hgete x hxe
              · rw [tu2]
                exact ComponentTable.get_insert_other _ e x _
                  (fun hc => hxe hc.symm)
            · obtain ⟨tu1, tu2⟩ := tunt e henotl'
              refine ⟨?_, Or.inl ?_⟩
              · rw [tu2]
                exact ComponentTable.get_insert_self _ _ _
              · rw [tu1]
                show ComponentTable.get _ e = _
                exact ComponentTable.get_insert_self _ _ _
          | error err =>
            rw [hupd] at hh
            have htail := ih w0
              { wm with trajectory := wm.trajectory.insert e rest }
              acc1 res hh hsz hchar hfeat hty hnd
              (fun q hq => hl q (List.mem_cons_of_mem _ hq))
              hlnd' hacc1
            obtain ⟨tnd, ttile, tunt, tcoll, tproj⟩ := htail
            refine ⟨tnd, ttile, ?_, tcoll, tproj, ?_⟩
            · intro x hxe hxl
              obtain ⟨tu1, tu2⟩ := tunt x hxl
              exact ⟨tu1, by
                rw [tu2]
                exact ComponentTable.get_insert_other _ e x _
                  (fun hc => hxe hc.symm)⟩
            · obtain ⟨tu1, tu2⟩ := tunt e henotl'
              refine ⟨?_, Or.inr ?_⟩
              · rw [tu2]
                exact ComponentTable.get_insert_self _ _ _
              · rw [tu1]
                exact hmloc
        injection hstep with hstep
        subst hstep
        by_cases hft :
            (wm.spatialTable.layersAt (cp.add d.coord)).feature.isSome = true
        case pos =>
          have hft0 :
              (w0.spatialTable.layersAt (cp.add d.coord)).feature.isSome =
                true := by
            rw [← hF]; exact hft
          rw [if_pos hft] at h
          have hacc1 : ∀ q ∈ l', q.1 ∉ accm.entitiesToRemove ++ [e] := by
            intro q hq hmem
            rcases List.mem_append.mp hmem with hmem | hmem
            · exact hacc q (List.mem_cons_of_mem _ hq) hmem
            · apply henotl'
              rw [← List.mem_singleton.mp hmem]
              exact List.mem_map_of_mem Prod.fst hq
          obtain ⟨tnd, ttile, tunt, tcoll, tproj, theadt, theadl⟩ :=
            mainAcc _ h hacc1
          obtain ⟨sfx, hsfx, hsfxmem⟩ :=
            collectProjectileOutcomes_removes_mono w0 l' _ _ tcoll
          have hcoll : collectProjectileOutcomes w0 ((e, d :: rest) :: l') accm =
              some res.2 := by
            rw [collectProjectileOutcomes_cons_eq w0 accm e d rest l' cp hco0,
              if_pos hval0, if_pos hft0]
            exact tcoll
          refine ⟨tnd, ttile, ?_, hcoll, ?_⟩
          · intro x hx
            exact tunt x (fun hc => hx (by simp [hc]))
              (fun hc => hx (by
                simp only [List.map_cons]
                exact List.mem_cons_of_mem _ hc))
          · intro q hq
            rcases List.mem_cons.mp hq with hq | hq
            · subst hq
              refine ⟨fun h' => ?_, ?_⟩
              · exact (List.cons_ne_nil d rest h').elim
              · intro d' rest' cq hq2 hqloc
                have hq2' : d :: rest = d' :: rest' := hq2
                injection hq2' with hd hrest
                subst hd
                subst hrest
                have hqloc' : w0.spatialTable.locationOf e =
                    some ⟨cq, some Layer.projectile⟩ := hqloc
                have hcq : cq = cp :=
                  congrArg Location.coord (Option.some.inj (hqloc'.symm.trans h0loc))
                subst hcq
                refine ⟨fun hcol => ?_, fun hf0 hc0 => ?_⟩
                · rw [hsfx]
                  simp
                · rw [hf0] at hft0
                  exact Bool.noConfusion hft0
            · exact tproj q hq
        case neg =>
          have hft' :
              (wm.spatialTable.layersAt (cp.add d.coord)).feature.isSome =
                false := by
            simp only [Bool.not_eq_true] at hft
            exact hft
          have hft0 :
              (w0.spatialTable.layersAt (cp.add d.coord)).feature.isSome =
                false := by
            rw [← hF]; exact hft'
          rw [if_neg hft] at h
          cases hch : (wm.spatialTable.layersAt (cp.add d.coord)).character with
          | none =>
            have hch0 :
                (w0.spatialTable.layersAt (cp.add d.coord)).character =
                  none := by
              rw [← hC]; exact hch
            rw [hch] at h
            have h2 : l'.foldlM projectileStep
                ({ wm with
                    trajectory := wm.trajectory.insert e rest
                    spatialTable :=
                      match wm.spatialTable.updateCoord e (cp.add d.coord) with
                      | Except.ok st => st
                      | Except.error _ => wm.spatialTable }, accm) = some res := h
            have hacc1 : ∀ q ∈ l', q.1 ∉ accm.entitiesToRemove :=
              fun q hq => hacc q (List.mem_cons_of_mem _ hq)
            obtain ⟨tnd, ttile, tunt, tcoll, tproj, theadt, theadl⟩ :=
              mainAcc accm h2 hacc1
            obtain ⟨sfx, hsfx, hsfxmem⟩ :=
              collectProjectileOutcomes_removes_mono w0 l' _ _ tcoll
            have hcoll :
                collectProjectileOutcomes w0 ((e, d :: rest) :: l') accm =
                  some res.2 := by
              rw [collectProjectileOutcomes_cons_eq w0 accm e d rest l' cp hco0,
                if_pos hval0, hft0, hch0]
              exact tcoll
            refine ⟨tnd, ttile, ?_, hcoll, ?_⟩
            · intro x hx
              exact tunt x (fun hc => hx (by simp [hc]))
                (fun hc => hx (by
                  simp only [List.map_cons]
                  exact List.mem_cons_of_mem _ hc))
            · intro q hq
              rcases List.mem_cons.mp hq with hq | hq
              · subst hq
                refine ⟨fun h' => ?_, ?_⟩
                · exact (List.cons_ne_nil d rest h').elim
                · intro d' rest' cq hq2 hqloc
                  have hq2' : d :: rest = d' :: rest' := hq2
                  injection hq2' with hd hrest
                  subst hd
                  subst hrest
                  have hqloc' : w0.spatialTable.locationOf e =
                      some ⟨cq, some Layer.projectile⟩ := hqloc
                  have hcq : cq = cp :=
                    congrArg Location.coord (Option.some.inj (hqloc'.symm.trans h0loc))
                  subst hcq
                  refine ⟨fun hcol => ?_, fun hf0 hc0 => ?_⟩
                  · rcases hcol with hcol | hcol
                    · rw [hft0] at hcol
                      exact Bool.noConfusion hcol
                    · rw [hch0] at hcol
                      exact Bool.noConfusion hcol
                  · refine ⟨?_, theadt, theadl⟩
                    rw [hsfx]
                    intro hmem
                    rcases List.mem_append.mp hmem with hmem | hmem
                    · exact hacc (e, d :: rest) (List.mem_cons_self _ _) hmem
                    · exact henotl' (hsfxmem e hmem)
              · exact tproj q hq
          | some ch =>
            have hch0 :
                (w0.spatialTable.layersAt (cp.add d.coord)).character =
                  some ch := by
              rw [← hC]; exact hch
            rw [hch] at h
            have hacc1 : ∀ q ∈ l', q.1 ∉ accm.entitiesToRemove ++ [e] := by
              intro q hq hmem
              rcases List.mem_append.mp hmem with hmem | hmem
              · exact hacc q (List.mem_cons_of_mem _ hq) hmem
              · apply henotl'
                rw [← List.mem_singleton.mp hmem]
                exact List.mem_map_of_mem Prod.fst hq
            have hmain : ∀ acc1 : ProjectileAcc,
                l'.foldlM projectileStep
                  ({ wm with
                      trajectory := wm.trajectory.insert e rest
                      spatialTable :=
                        match wm.spatialTable.updateCoord e (cp.add d.coord) with
                        | Except.ok st => st
                        | Except.error _ => wm.spatialTable }, acc1) =
                    some res →
                acc1.entitiesToRemove = accm.entitiesToRemove ++ [e] →
                ((res.1.spatialTable.entries.map Prod.fst).Nodup ∧
                  res.1.tile = wm.tile ∧
                  (∀ x, x ∉ ((e, d :: rest) :: l').map Prod.fst →
                    res.1.spatialTable.locationOf x =
                      wm.spatialTable.locationOf x ∧
                    res.1.trajectory.get x = wm.trajectory.get x) ∧
                  collectProjectileOutcomes w0 l' acc1 = some res.2 ∧
                  (∀ q ∈ (e, d :: rest) :: l',
                    (q.2 = [] → q.1 ∈ res.2.entitiesToRemove) ∧
                    (∀ d' rest' cq, q.2 = d' :: rest' →
                      w0.spatialTable.locationOf q.1 =
                        some ⟨cq, some Layer.projectile⟩ →
                      (((w0.spatialTable.layersAt
                            (cq.add d'.coord)).feature.isSome = true ∨
                        (w0.spatialTable.layersAt
                            (cq.add d'.coord)).character.isSome = true) →
                        q.1 ∈ res.2.entitiesToRemove) ∧
                      ((w0.spatialTable.layersAt
                            (cq.add d'.coord)).feature.isSome = false →
                        (w0.spatialTable.layersAt
                            (cq.add d'.coord)).character = none →
                        q.1 ∉ res.2.entitiesToRemove ∧
                        res.1.trajectory.get q.1 = some rest' ∧
                        (res.1.spatialTable.locationOf q.1 =
                            some ⟨cq.add d'.coord, some Layer.projectile⟩ ∨
                          res.1.spatialTable.locationOf q.1 =
                            some ⟨cq, some Layer.projectile⟩))))) := by
              intro acc1 hh hrem
              have hacc1' : ∀ q ∈ l', q.1 ∉ acc1.entitiesToRemove := by
                rw [hrem]
                exact hacc1
              obtain ⟨tnd, ttile, tunt, tcoll, tproj, theadt, theadl⟩ :=
                mainAcc acc1 hh hacc1'
              obtain ⟨sfx, hsfx, hsfxmem⟩ :=
                collectProjectileOutcomes_removes_mono w0 l' _ _ tcoll
              refine ⟨tnd, ttile, ?_, tcoll, ?_⟩
              · intro x hx
                exact tunt x (fun hc => hx (by simp [hc]))
                  (fun hc => hx (by
                    simp only [List.map_cons]
                    exact List.mem_cons_of_mem _ hc))
              · intro q hq
                rcases List.mem_cons.mp hq with hq | hq
                · subst hq
                  refine ⟨fun h' => ?_, ?_⟩
                  · exact (List.cons_ne_nil d rest h').elim
                  · intro d' rest' cq hq2 hqloc
                    have hq2' : d :: rest = d' :: rest' := hq2
                    injection hq2' with hd hrest
                    subst hd
                    subst hrest
                    have hqloc' : w0.spatialTable.locationOf e =
                        some ⟨cq, some Layer.projectile⟩ := hqloc
                    have hcq : cq = cp :=
                      congrArg Location.coord (Option.some.inj (hqloc'.symm.trans h0loc))
                    subst hcq
                    refine ⟨fun hcol => ?_, fun hf0 hc0 => ?_⟩
                    · rw [hsfx, hrem]
                      simp
                    · rw [hch0] at hc0
                      exact Option.noConfusion hc0
                · exact tproj q hq
            cases hty2 : wm.projectileTy.get e with
            | none =>
              have hty0 : w0.projectileTy.get e = none := by
                rw [← hty]; exact hty2
              rw [hty2] at h
              have h2 : l'.foldlM projectileStep
                  ({ wm with
                      trajectory := wm.trajectory.insert e rest
                      spatialTable :=
                        match wm.spatialTable.updateCoord e (cp.add d.coord) with
                        | Except.ok st => st
                        | Except.error _ => wm.spatialTable },
                    { entitiesToRemove := accm.entitiesToRemove ++ [e]
                      fireballHit := accm.fireballHit
                      confusionHit := accm.confusionHit }) = some res := h
              obtain ⟨tnd, ttile, tunt, tcoll, tproj⟩ := hmain _ h2 rfl
              have hcoll :
                  collectProjectileOutcomes w0 ((e, d :: rest) :: l') accm =
                    some res.2 := by
                rw [collectProjectileOutcomes_cons_eq w0 accm e d rest l' cp
                  hco0, if_pos hval0, hft0, hch0, hty0]
                exact tcoll
              exact ⟨tnd, ttile, tunt, hcoll, tproj⟩
            | some pt =>
              cases pt with
              | fireball dmg =>
                have hty0 : w0.projectileTy.get e =
                    some (ProjectileType.fireball dmg) := by
                  rw [← hty]; exact hty2
                rw [hty2] at h
                have h2 : l'.foldlM projectileStep
                    ({ wm with
                        trajectory := wm.trajectory.insert e rest
                        spatialTable :=
                          match wm.spatialTable.updateCoord e
                              (cp.add d.coord) with
                          | Except.ok st => st
                          | Except.error _ => wm.spatialTable },
                      { entitiesToRemove := accm.entitiesToRemove ++ [e]
                        fireballHit := accm.fireballHit ++ [(ch, dmg)]
                        confusionHit := accm.confusionHit }) = some res := h
                obtain ⟨tnd, ttile, tunt, tcoll, tproj⟩ := hmain _ h2 rfl
                have hcoll :
                    collectProjectileOutcomes w0 ((e, d :: rest) :: l') accm =
                      some res.2 := by
                  rw [collectProjectileOutcomes_cons_eq w0 accm e d rest l' cp
                    hco0, if_pos hval0, hft0, hch0, hty0]
                  exact tcoll
                exact ⟨tnd, ttile, tunt, hcoll, tproj⟩
              | confusion dur =>
                have hty0 : w0.projectileTy.get e =
                    some (ProjectileType.confusion dur) := by
                  rw [← hty]; exact hty2
                rw [hty2] at h
                have h2 : l'.foldlM projectileStep
                    ({ wm with
                        trajectory := wm.trajectory.insert e rest
                        spatialTable :=
                          match wm.spatialTable.updateCoord e
                              (cp.add d.coord) with
                          | Except.ok st => st
                          | Except.error _ => wm.spatialTable },
                      { entitiesToRemove := accm.entitiesToRemove ++ [e]
                        fireballHit := accm.fireballHit
                        confusionHit :=
                          accm.confusionHit ++ [(ch, dur)] }) = some res := h
                obtain ⟨tnd, ttile, tunt, tcoll, tproj⟩ := hmain _ h2 rfl
                have hcoll :
                    collectProjectileOutcomes w0 ((e, d :: rest) :: l') accm =
                      some res.2 := by
                  rw [collectProjectileOutcomes_cons_eq w0 accm e d rest l' cp
                    hco0, if_pos hval0, hft0, hch0, hty0]
                  exact tcoll
                exact ⟨tnd, ttile, tunt, hcoll, tproj⟩

/-- `collectProjectileOutcomes` fails on a pending step whose projectile has
no spatial placement. -/
theorem collectProjectileOutcomes_cons_none (w : World) (accm : ProjectileAcc)
    (e : Entity) (d : CardinalDirection) (rest : List CardinalDirection)
    (l' : List (Entity × List CardinalDirection))
    (hco : w.spatialTable.coordOf e = none) :
    collectProjectileOutcomes w ((e, d :: rest) :: l') accm = none := by
  conv_lhs => whnf
  rw [hco]

/-- `remove_entity` clears the removed entity's trajectory and spatial
placement and leaves every other entity's untouched. -/
theorem removeEntity_views (w : World) (e x : Entity) :
    (x = e →
      (removeEntity w e).trajectory.get x = none ∧
      (removeEntity w e).spatialTable.locationOf x = none) ∧
    (x ≠ e →
      (removeEntity w e).trajectory.get x = w.trajectory.get x ∧
      (removeEntity w e).spatialTable.locationOf x =
        w.spatialTable.locationOf x) := by
  constructor
  · intro hx
    subst hx
    exact ⟨ComponentTable.get_removeKey_self _ _,
      ComponentTable.get_removeKey_self _ _⟩
  · intro hx
    exact ⟨ComponentTable.get_removeKey_other _ e x (fun hc => hx hc.symm),
      ComponentTable.get_removeKey_other _ e x (fun hc => hx hc.symm)⟩

/-- Folding `remove_entity` over a list leaves the trajectory and placement
of an entity outside the list untouched. -/
theorem foldl_removeEntity_preserves (es : List Entity) :
    ∀ (w : World) (x : Entity), x ∉ es →
      (es.foldl removeEntity w).trajectory.get x = w.trajectory.get x ∧
      (es.foldl removeEntity w).spatialTable.locationOf x =
        w.spatialTable.locationOf x := by
  induction es with
  | nil => intro w x _; exact ⟨rfl, rfl⟩
  | cons e es ih =>
    intro w x hx
    have hxe : x ≠ e := fun hc => hx (hc ▸ List.mem_cons_self _ _)
    have hxes : x ∉ es := fun hc => hx (List.mem_cons_of_mem _ hc)
    obtain ⟨h1, h2⟩ := ih (removeEntity w e) x hxes
    obtain ⟨r1, r2⟩ := (removeEntity_views w e x).2 hxe
    exact ⟨h1.trans r1, h2.trans r2⟩

/-- Folding `remove_entity` over a list drops the trajectory and placement
of every entity in the list. -/
theorem foldl_removeEntity_removes (es : List Entity) :
    ∀ (w : World) (x : Entity), x ∈ es →
      (es.foldl removeEntity w).trajectory.get x = none ∧
      (es.foldl removeEntity w).spatialTable.locationOf x = none := by
  induction es with
  | nil => intro w x hx; cases hx
  | cons e es ih =>
    intro w x hx
    by_cases hxes : x ∈ es
    · exact ih (removeEntity w e) x hxes
    · have hxe : x = e := by
        rcases List.mem_cons.mp hx with h | h
        · exact h
        · exact absurd h hxes
      subst hxe
      obtain ⟨p1, p2⟩ := foldl_removeEntity_preserves es (removeEntity w x) x hxes
      obtain ⟨r1, r2⟩ := (removeEntity_views w x x).1 rfl
      exact ⟨p1.trans r1, p2.trans r2⟩

/-- Folding `remove_entity` preserves key uniqueness of the spatial table. -/
theorem foldl_removeEntity_nodup (es : List Entity) :
    ∀ (w : World),
      (w.spatialTable.entries.map Prod.fst).Nodup →
      ((es.foldl removeEntity w).spatialTable.entries.map Prod.fst).Nodup := by
  induction es with
  | nil => intro w h; exact h
  | cons e es ih =>
    intro w h
    exact ih (removeEntity w e)
      (ComponentTable.nodup_keys_removeKey _ e h)

/-- Every fireball hit queued by the collector targets an entity that sits on
the Character layer of the frozen pre-tick world. -/
theorem collectProjectileOutcomes_hits_chars (w0 : World)
    (l : List (Entity × List CardinalDirection)) :
    ∀ acc acc', collectProjectileOutcomes w0 l acc = some acc' →
      ∀ vd ∈ acc'.fireballHit, vd ∈ acc.fireballHit ∨
        ∃ c, w0.spatialTable.entityAt c Layer.character = some vd.1 := by
  induction l with
  | nil =>
    intro acc acc' h vd hvd
    injection h with h
    subst h
    exact Or.inl hvd
  | cons p l ih =>
    intro acc acc' h vd hvd
    obtain ⟨e, traj⟩ := p
    cases traj with
    | nil => exact ih _ _ h vd hvd
    | cons d rest =>
      cases hco : w0.spatialTable.coordOf e with
      | none =>
        rw [collectProjectileOutcomes_cons_none w0 acc e d rest l hco] at h
        cases h
      | some cp =>
        rw [collectProjectileOutcomes_cons_eq w0 acc e d rest l cp hco] at h
        by_cases hval :
            (cp.add d.coord).isValid w0.spatialTable.gridSize = true
        case neg => rw [if_neg hval] at h; cases h
        rw [if_pos hval] at h
        by_cases hft :
            (w0.spatialTable.layersAt (cp.add d.coord)).feature.isSome = true
        · rw [if_pos hft] at h
          exact ih _ _ h vd hvd
        · rw [if_neg hft] at h
          cases hch :
              (w0.spatialTable.layersAt (cp.add d.coord)).character with
          | none =>
            rw [hch] at h
            exact ih _ _ h vd hvd
          | some ch =>
            have hchAt : w0.spatialTable.entityAt (cp.add d.coord)
                Layer.character = some ch := hch
            rw [hch] at h
            cases hty : w0.projectileTy.get e with
            | none =>
              rw [hty] at h
              exact ih _ _ h vd hvd
            | some pt =>
              cases pt with
              | fireball dmg =>
                rw [hty] at h
                rcases ih _ _ h vd hvd with hin | hex
                · rcases List.mem_append.mp hin with hin | hin
                  · exact Or.inl hin
                  · rw [List.mem_singleton.mp hin]
                    exact Or.inr ⟨cp.add d.coord, hchAt⟩
                · exact Or.inr hex
              | confusion dur =>
                rw [hty] at h
                exact ih _ _ h vd hvd

/-- `character_die` leaves a projectile-or-absent entity's placement and
trajectory untouched and preserves key uniqueness: such an entity can be
neither the dying character nor the displaced Object-slot occupant. -/
theorem characterDie_preserves_proj (w : World) (v : Entity) (w' : World)
    (h : characterDie w v = some w') (x : Entity) (hxv : x ≠ v)
    (hnd : (w.spatialTable.entries.map Prod.fst).Nodup)
    (hx : w.spatialTable.locationOf x = none ∨
      ∃ c, w.spatialTable.locationOf x = some ⟨c, some Layer.projectile⟩) :
    w'.spatialTable.locationOf x = w.spatialTable.locationOf x ∧
    w'.trajectory.get x = w.trajectory.get x ∧
    (w'.spatialTable.entries.map Prod.fst).Nodup := by
  unfold characterDie at h
  cases hu : w.spatialTable.updateLayer v Layer.object with
  | ok st =>
    rw [hu] at h
    obtain ⟨loc, hloc, hst⟩ := SpatialTable.updateLayer_ok_elim hu
    subst hst
    dsimp only at h
    have hnd' : ((w.spatialTable.entries.insert v
        ⟨loc.coord, some Layer.object⟩).map Prod.fst).Nodup := by
      rw [ComponentTable.keys_insert_of_isSome _ _ _ (by
        rw [show w.spatialTable.entries.get v = some loc from hloc]; rfl)]
      exact hnd
    have hgx : ComponentTable.get (w.spatialTable.entries.insert v
        ⟨loc.coord, some Layer.object⟩) x = w.spatialTable.entries.get x :=
      ComponentTable.get_insert_other _ v x _ (Ne.symm hxv)
    cases htile : w.tile.get v with
    | none => rw [htile] at h; cases h
    | some t =>
      rw [htile] at h
      cases t <;> dsimp only at h
      case player =>
        injection h with h
        subst h
        exact ⟨hgx, rfl, hnd'⟩
      case npc k =>
        injection h with h
        subst h
        exact ⟨hgx, rfl, hnd'⟩
      all_goals cases h
  | error err =>
    cases err with
    | missing => rw [hu] at h; dsimp only at h; cases h
    | occupiedBy o =>
      rw [hu] at h
      obtain ⟨loc, hlv, hAt, hov⟩ := SpatialTable.updateLayer_occupied_elim hu
      have hgo : w.spatialTable.entries.get o =
          some ⟨loc.coord, some Layer.object⟩ :=
        SpatialTable.get_of_entityAt hnd hAt
      have hxo : x ≠ o := by
        intro hc
        subst hc
        rcases hx with hx | ⟨c2, hx⟩
        · have hx' : w.spatialTable.entries.get x = none := hx
          rw [hx'] at hgo
          cases hgo
        · have hx' : w.spatialTable.entries.get x =
              some ⟨c2, some Layer.projectile⟩ := hx
          rw [hx'] at hgo
          have h2 := congrArg Location.layer (Option.some.inj hgo)
          exact Layer.noConfusion (Option.some.inj h2)
      dsimp only at h
      cases hu2 : (removeEntity w o).spatialTable.updateLayer v
          Layer.object with
      | error e2 => rw [hu2] at h; dsimp only at h; cases h
      | ok st2 =>
        rw [hu2] at h
        obtain ⟨loc2, hloc2, hst2⟩ := SpatialTable.updateLayer_ok_elim hu2
        subst hst2
        dsimp only at h
        have hndr : ((removeEntity w o).spatialTable.entries.map
            Prod.fst).Nodup :=
          ComponentTable.nodup_keys_removeKey _ o hnd
        have hnd' : (((removeEntity w o).spatialTable.entries.insert v
            ⟨loc2.coord, some Layer.object⟩).map Prod.fst).Nodup := by
          rw [ComponentTable.keys_insert_of_isSome _ _ _ (by
            rw [show (removeEntity w o).spatialTable.entries.get v =
              some loc2 from hloc2]; rfl)]
          exact hndr
        have hgx : ComponentTable.get
            ((removeEntity w o).spatialTable.entries.insert v
              ⟨loc2.coord, some Layer.object⟩) x =
            w.spatialTable.entries.get x := by
          rw [ComponentTable.get_insert_other _ v x _ (Ne.symm hxv)]
          exact ComponentTable.get_removeKey_other _ o x (Ne.symm hxo)
        have htx : (removeEntity w o).trajectory.get x =
            w.trajectory.get x :=
          ComponentTable.get_removeKey_other _ o x (Ne.symm hxo)
        cases htile : (removeEntity w o).tile.get v with
        | none => rw [htile] at h; cases h
        | some t =>
          rw [htile] at h
          cases t <;> dsimp only at h
          case player =>
            injection h with h
            subst h
            exact ⟨hgx, htx, hnd'⟩
          case npc k =>
            injection h with h
            subst h
            exact ⟨hgx, htx, hnd'⟩
          all_goals cases h

/-- `character_damage` likewise: placement, trajectory and key uniqueness
survive for a projectile-or-absent bystander. -/
theorem characterDamage_preserves_proj (w : World) (v : Entity) (dmg : Nat)
    (x : Entity) (r : World × Bool)
    (h : characterDamage w v dmg = some r) (hxv : x ≠ v)
    (hnd : (w.spatialTable.entries.map Prod.fst).Nodup)
    (hx : w.spatialTable.locationOf x = none ∨
      ∃ c, w.spatialTable.locationOf x = some ⟨c, some Layer.projectile⟩) :
    r.1.spatialTable.locationOf x = w.spatialTable.locationOf x ∧
    r.1.trajectory.get x = w.trajectory.get x ∧
    (r.1.spatialTable.entries.map Prod.fst).Nodup := by
  unfold characterDamage at h
  cases hhp : w.hitPoints.get v with
  | none =>
    rw [hhp] at h
    injection h with h
    subst h
    exact ⟨rfl, rfl, hnd⟩
  | some hp =>
    rw [hhp] at h
    dsimp only at h
    by_cases hz : hp.current - dmg = 0
    · rw [if_pos hz] at h
      cases hdie : characterDie
          { w with hitPoints :=
              w.hitPoints.insert v ⟨hp.current - dmg, hp.max⟩ } v with
      | none => rw [hdie] at h; cases h
      | some w2 =>
        rw [hdie] at h
        dsimp only [Option.map] at h
        injection h with h
        subst h
        exact characterDie_preserves_proj _ v w2 hdie x hxv hnd hx
    · rw [if_neg hz] at h
      injection h with h
      subst h
      exact ⟨rfl, rfl, hnd⟩

/-- One queued fireball application leaves a projectile-or-absent bystander's
placement and trajectory untouched. -/
theorem applyFireballHit_preserves_proj (s : World × List LogMessage)
    (p : Entity × Nat) (r : World × List LogMessage)
    (h : applyFireballHit s p = some r) (x : Entity) (hxv : x ≠ p.1)
    (hnd : (s.1.spatialTable.entries.map Prod.fst).Nodup)
    (hx : s.1.spatialTable.locationOf x = none ∨
      ∃ c, s.1.spatialTable.locationOf x = some ⟨c, some Layer.projectile⟩) :
    r.1.spatialTable.locationOf x = s.1.spatialTable.locationOf x ∧
    r.1.trajectory.get x = s.1.trajectory.get x ∧
    (r.1.spatialTable.entries.map Prod.fst).Nodup := by
  obtain ⟨w, msgs⟩ := s
  obtain ⟨v, dmg⟩ := p
  unfold applyFireballHit at h
  dsimp only at h
  cases hcd : characterDamage w v dmg with
  | none => rw [hcd] at h; cases h
  | some r1 =>
    rw [hcd] at h
    obtain ⟨w1, died⟩ := r1
    obtain ⟨p1, p2, p3⟩ := characterDamage_preserves_proj w v dmg x (w1, died)
      hcd hxv hnd hx
    cases died with
    | false =>
      have h' : (some (w1, msgs) : Option (World × List LogMessage)) =
          some r := h
      injection h' with h'
      subst h'
      exact ⟨p1, p2, p3⟩
    | true =>
      cases hnpc : w.npcType.get v with
      | some npc =>
        rw [hnpc] at h
        have h' : (some (w1, msgs ++ [LogMessage.npcDies npc]) :
            Option (World × List LogMessage)) = some r := h
        injection h' with h'
        subst h'
        exact ⟨p1, p2, p3⟩
      | none =>
        rw [hnpc] at h
        have h' : (some (w1, msgs) : Option (World × List LogMessage)) =
            some r := h
        injection h' with h'
        subst h'
        exact ⟨p1, p2, p3⟩

/-- The whole fireball fold leaves a projectile-or-absent bystander that is
none of the victims untouched. -/
theorem foldlM_applyFireballHit_preserves (hits : List (Entity × Nat)) :
    ∀ (s r : World × List LogMessage),
      hits.foldlM applyFireballHit s = some r →
      ∀ x, (∀ vd ∈ hits, x ≠ vd.1) →
      (s.1.spatialTable.entries.map Prod.fst).Nodup →
      (s.1.spatialTable.locationOf x = none ∨
        ∃ c, s.1.spatialTable.locationOf x =
          some ⟨c, some Layer.projectile⟩) →
      r.1.spatialTable.locationOf x = s.1.spatialTable.locationOf x ∧
      r.1.trajectory.get x = s.1.trajectory.get x := by
  induction hits with
  | nil =>
    intro s r h x _ _ _
    injection h with h
    subst h
    exact ⟨rfl, rfl⟩
  | cons p hits ih =>
    intro s r h x hxv hnd hx
    rw [List.foldlM_cons] at h
    cases hstep : applyFireballHit s p with
    | none => rw [hstep] at h; cases h
    | some s1 =>
      rw [hstep] at h
      dsimp only [bind, Option.bind] at h
      obtain ⟨q1, q2, q3⟩ := applyFireballHit_preserves_proj s p s1 hstep x
        (hxv p (List.mem_cons_self _ _)) hnd hx
      obtain ⟨t1, t2⟩ := ih s1 r h x
        (fun vd hvd => hxv vd (List.mem_cons_of_mem _ hvd)) q3 (by
          rcases hx with hx | ⟨c, hx⟩
          · exact Or.inl (q1.trans hx)
          · exact Or.inr ⟨c, q1.trans hx⟩)
      exact ⟨t1.trans q1, t2.trans q2⟩

/-- One queued confusion application never touches the spatial table or the
trajectories. -/
theorem applyConfusionHit_state (w : World) (msgs : List LogMessage)
    (v : Entity) (dur : Nat) :
    (applyConfusionHit (w, msgs) (v, dur)).1.spatialTable = w.spatialTable ∧
    (applyConfusionHit (w, msgs) (v, dur)).1.trajectory = w.trajectory := by
  show ((match ({ w with confusionCountdown :=
        w.confusionCountdown.insert v dur } : World).npcType.get v with
      | some npcType =>
        ({ w with confusionCountdown := w.confusionCountdown.insert v dur },
          msgs ++ [LogMessage.npcBecomesConfused npcType])
      | none =>
        ({ w with confusionCountdown := w.confusionCountdown.insert v dur },
          msgs)).1.spatialTable = w.spatialTable) ∧
    ((match ({ w with confusionCountdown :=
        w.confusionCountdown.insert v dur } : World).npcType.get v with
      | some npcType =>
        ({ w with confusionCountdown := w.confusionCountdown.insert v dur },
          msgs ++ [LogMessage.npcBecomesConfused npcType])
      | none =>
        ({ w with confusionCountdown := w.confusionCountdown.insert v dur },
          msgs)).1.trajectory = w.trajectory)
  cases ({ w with confusionCountdown :=
      w.confusionCountdown.insert v dur } : World).npcType.get v with
  | some npc => exact ⟨rfl, rfl⟩
  | none => exact ⟨rfl, rfl⟩

/-- The whole confusion fold never touches the spatial table or the
trajectories. -/
theorem foldl_applyConfusionHit_preserves (hits : List (Entity × Nat)) :
    ∀ (s : World × List LogMessage),
      (hits.foldl applyConfusionHit s).1.spatialTable = s.1.spatialTable ∧
      (hits.foldl applyConfusionHit s).1.trajectory = s.1.trajectory := by
  induction hits with
  | nil => intro s; exact ⟨rfl, rfl⟩
  | cons p hits ih =>
    intro s
    obtain ⟨t1, t2⟩ := ih (applyConfusionHit s p)
    obtain ⟨w, msgs⟩ := s
    obtain ⟨v, dur⟩ := p
    obtain ⟨q1, q2⟩ := applyConfusionHit_state w msgs v dur
    exact ⟨t1.trans q1, t2.trans q2⟩

/-- **C6** (corrected): in `move_projectiles`, every projectile consumes one
trajectory step during a single pass over the trajectory table; it ends the
call destroyed (trajectory and spatial placement dropped) when it had no
steps left or when its destination cell holds a Feature or a Character
occupant of the frozen pre-tick world; the queued damage/confusion effects
are exactly those read off the frozen pre-tick world by
`collectProjectileOutcomes` and are applied only after the pass, every
queued fireball victim being a Character-layer occupant of the pre-tick
world.  However, a projectile whose destination is blocked only by another
projectile is NOT destroyed and may fail to advance: its coordinate can
stay put while the step is still consumed, so the claim's unconditional
"advances exactly one step" does not hold. -/
theorem C6_projectile_tick (w wfinal : World)
    (log logfinal : List LogMessage)
    (h : moveProjectiles w log = some (wfinal, logfinal))
    (hnd : (w.spatialTable.entries.map Prod.fst).Nodup)
    (htrajnd : (w.trajectory.map Prod.fst).Nodup)
    (hplaced : ∀ p ∈ w.trajectory, ∃ cp,
      w.spatialTable.locationOf p.1 = some ⟨cp, some Layer.projectile⟩) :
    ∃ acc : ProjectileAcc,
      collectProjectileOutcomes w w.trajectory ⟨[], [], []⟩ = some acc ∧
      (∀ vd ∈ acc.fireballHit, ∃ c,
        w.spatialTable.entityAt c Layer.character = some vd.1) ∧
      (∀ p ∈ w.trajectory, ∀ cp,
        w.spatialTable.locationOf p.1 = some ⟨cp, some Layer.projectile⟩ →
        ((p.2 = [] →
          wfinal.trajectory.get p.1 = none ∧
          wfinal.spatialTable.locationOf p.1 = none) ∧
        (∀ d rest, p.2 = d :: rest →
          (((w.spatialTable.layersAt (cp.add d.coord)).feature.isSome =
              true ∨
            (w.spatialTable.layersAt (cp.add d.coord)).character.isSome =
              true) →
            wfinal.trajectory.get p.1 = none ∧
            wfinal.spatialTable.locationOf p.1 = none) ∧
          ((w.spatialTable.layersAt (cp.add d.coord)).feature.isSome =
              false →
            (w.spatialTable.layersAt (cp.add d.coord)).character = none →
            wfinal.trajectory.get p.1 = some rest ∧
            (wfinal.spatialTable.locationOf p.1 =
                some ⟨cp.add d.coord, some Layer.projectile⟩ ∨
              wfinal.spatialTable.locationOf p.1 =
                some ⟨cp, some Layer.projectile⟩))))) := by
  unfold moveProjectiles at h
  cases hpass : projectilePass w with
  | none => rw [hpass] at h; cases h
  | some pr =>
    rw [hpass] at h
    obtain ⟨w1, acc⟩ := pr
    dsimp only [bind, Option.bind] at h
    cases hfb : acc.fireballHit.foldlM applyFireballHit
        (acc.entitiesToRemove.foldl removeEntity w1, log) with
    | none => rw [hfb] at h; cases h
    | some s3 =>
      rw [hfb] at h
      obtain ⟨w3, ml1⟩ := s3
      cases hcf : acc.confusionHit.foldl applyConfusionHit (w3, ml1) with
      | mk w4 ml2 =>
        have h2 : (some ((acc.confusionHit.foldl applyConfusionHit
            (w3, ml1)).1, (acc.confusionHit.foldl applyConfusionHit
            (w3, ml1)).2) : Option (World × List LogMessage)) =
            some (wfinal, logfinal) := h
        rw [hcf] at h2
        have h' : (some (w4, ml2) : Option (World × List LogMessage)) =
            some (wfinal, logfinal) := h2
        injection h' with h'
        have hw4 : w4 = wfinal := congrArg Prod.fst h'
        obtain ⟨gnd, gtile, gunt, gcoll, gproj⟩ :=
          projectilePass_go w.trajectory w w ⟨[], [], []⟩ (w1, acc)
            (show w.trajectory.foldlM projectileStep (w, ⟨[], [], []⟩) =
              some (w1, acc) from hpass)
            rfl (fun c => rfl) (fun c => rfl) rfl hnd
            (fun p hp => by
              obtain ⟨cp, hcp⟩ := hplaced p hp
              exact ⟨cp, hcp, hcp⟩)
            htrajnd
            (fun p hp => List.not_mem_nil p.1)
        have hchars : ∀ vd ∈ acc.fireballHit, ∃ c,
            w.spatialTable.entityAt c Layer.character = some vd.1 := by
          intro vd hvd
          rcases collectProjectileOutcomes_hits_chars w w.trajectory
              ⟨[], [], []⟩ _ gcoll vd hvd with hin | hex
          · exact absurd hin (List.not_mem_nil vd)
          · exact hex
        refine ⟨acc, gcoll, hchars, ?_⟩
        intro p hp cp hcp
        have hxvs : ∀ vd ∈ acc.fireballHit, p.1 ≠ vd.1 := by
          intro vd hvd
          obtain ⟨c, hcAt⟩ := hchars vd hvd
          exact SpatialTable.ne_of_get_ne
            (show w.spatialTable.entries.get p.1 =
              some ⟨cp, some Layer.projectile⟩ from hcp)
            (SpatialTable.get_of_entityAt hnd hcAt)
            (Location.ne_of_layer_ne (by decide) _ _)
        have hnd2 : ((acc.entitiesToRemove.foldl removeEntity
            w1).spatialTable.entries.map Prod.fst).Nodup :=
          foldl_removeEntity_nodup _ w1 gnd
        have heff : ∀ (Lt : Option (List CardinalDirection))
            (Ll : Option Location),
            (acc.entitiesToRemove.foldl removeEntity w1).trajectory.get p.1 =
              Lt →
            (acc.entitiesToRemove.foldl removeEntity
              w1).spatialTable.locationOf p.1 = Ll →
            (Ll = none ∨ ∃ c, Ll = some ⟨c, some Layer.projectile⟩) →
            wfinal.trajectory.get p.1 = Lt ∧
            wfinal.spatialTable.locationOf p.1 = Ll := by
          intro Lt Ll ht hl hLl
          obtain ⟨f1, f2⟩ := foldlM_applyFireballHit_preserves acc.fireballHit
            (acc.entitiesToRemove.foldl removeEntity w1, log) (w3, ml1) hfb
            p.1 hxvs hnd2 (by
              rcases hLl with h2 | ⟨c, h2⟩
              · exact Or.inl (by rw [hl, h2])
              · exact Or.inr ⟨c, by rw [hl, h2]⟩)
          obtain ⟨c1, c2⟩ :=
            foldl_applyConfusionHit_preserves acc.confusionHit (w3, ml1)
          rw [hcf] at c1 c2
          have d1 : w4.spatialTable = w3.spatialTable := c1
          have d2 : w4.trajectory = w3.trajectory := c2
          rw [← hw4]
          constructor
          · rw [d2]
            exact f2.trans ht
          · rw [d1]
            exact f1.trans hl
        refine ⟨?_, ?_⟩
        · intro hempty
          have hmem : p.1 ∈ acc.entitiesToRemove := (gproj p hp).1 hempty
          obtain ⟨r1, r2⟩ :=
            foldl_removeEntity_removes acc.entitiesToRemove w1 p.1 hmem
          exact heff none none r1 r2 (Or.inl rfl)
        · intro d rest hq2
          have hsub := (gproj p hp).2 d rest cp hq2 hcp
          refine ⟨?_, ?_⟩
          · intro hcol
            have hmem : p.1 ∈ acc.entitiesToRemove := hsub.1 hcol
            obtain ⟨r1, r2⟩ :=
              foldl_removeEntity_removes acc.entitiesToRemove w1 p.1 hmem
            exact heff none none r1 r2 (Or.inl rfl)
          · intro hf0 hc0
            obtain ⟨hnm, htr, hloc⟩ := hsub.2 hf0 hc0
            obtain ⟨r1, r2⟩ :=
              foldl_removeEntity_preserves acc.entitiesToRemove w1 p.1 hnm
            rcases hloc with hloc | hloc
            · have hval := heff (some rest)
                (some ⟨cp.add d.coord, some Layer.projectile⟩)
                (r1.trans htr) (r2.trans hloc) (Or.inr ⟨_, rfl⟩)
              exact ⟨hval.1, Or.inl hval.2⟩
            · have hval := heff (some rest)
                (some ⟨cp, some Layer.projectile⟩)
                (r1.trans htr) (r2.trans hloc) (Or.inr ⟨_, rfl⟩)
              exact ⟨hval.1, Or.inr hval.2⟩

end World

/-- Two fireball projectiles converging on the same cell: entity 0 at (2,2)
heading east, entity 1 at (4,2) heading west, both aiming at (3,2). -/
def c6World : World where
  nextEntity := 2
  tile := [(0, Tile.projectile (ProjectileType.fireball 1)),
    (1, Tile.projectile (ProjectileType.fireball 1))]
  npcType := []
  hitPoints := []
  item := []
  inventory := []
  trajectory := [(0, [CardinalDirection.east]), (1, [CardinalDirection.west])]
  projectileTy := [(0, ProjectileType.fireball 1),
    (1, ProjectileType.fireball 1)]
  confusionCountdown := []
  baseDamage := []
  strength := []
  dexterity := []
  intelligence := []
  equipHeld := []
  equipWorn := []
  spatialTable := ⟨⟨6, 6⟩,
    [(0, ⟨⟨2, 2⟩, some Layer.projectile⟩),
      (1, ⟨⟨4, 2⟩, some Layer.projectile⟩)]⟩

/-- The world and message log `move_projectiles` produces on `c6World`. -/
def c6Result : World × List LogMessage :=
  (World.moveProjectiles c6World []).getD (c6World, [])

/-- C6 counterexample: in `c6World`, projectile 0 advances into (3,2) first;
projectile 1 then consumes its only remaining step — its trajectory empties —
yet its coordinate stays (4,2), because the spatial move onto the occupied
Projectile slot fails and the failure is silently discarded
(`let _ = update_coord`).  So not every projectile "advances exactly one
step": a projectile blocked by another projectile loses the step without
moving, and it is not destroyed either. -/
theorem C6_counterexample :
    c6World.trajectory.get 1 = some [CardinalDirection.west] ∧
    (World.moveProjectiles c6World []).map (fun r =>
      (r.1.spatialTable.locationOf 0, r.1.spatialTable.locationOf 1,
        r.1.trajectory.get 1)) =
      some (some ⟨⟨3, 2⟩, some Layer.projectile⟩,
        some ⟨⟨4, 2⟩, some Layer.projectile⟩, some []) :=
  ⟨rfl, rfl⟩

/-- C6 witness: the corrected tick theorem applies to `c6World` — the tick
succeeds and the queued effects are exactly those collected from the frozen
pre-tick world. -/
theorem C6_witness :
    World.moveProjectiles c6World [] = some (c6Result.1, c6Result.2) ∧
    ∃ acc : ProjectileAcc,
      collectProjectileOutcomes c6World c6World.trajectory ⟨[], [], []⟩ =
        some acc :=
  ⟨rfl,
    (World.C6_projectile_tick c6World c6Result.1 [] c6Result.2 rfl
      (by decide) (by decide)
      (fun p hp => by
        rcases List.mem_cons.mp hp with h1 | h1
        · exact ⟨⟨2, 2⟩, by rw [h1]; rfl⟩
        · rcases List.mem_cons.mp h1 with h2 | h2
          · exact ⟨⟨4, 2⟩, by rw [h2]; rfl⟩
          · exact absurd h2 (List.not_mem_nil p))).imp
      (fun acc hacc => hacc.1)⟩
